import Mathlib

/-!
Verification of the UnBreakableSVG merge pipeline (`scripts/merge-layout.js`,
plus the earlier iteration of the same pipeline kept in the repository).

The JavaScript code is shallowly embedded:
* JS strings are modelled as `List Char` (wrapped as `String` at interfaces);
  the code only ever inspects strings character by character.
* JS numbers are modelled by `JNum`: an exact rational together with the
  special values `NaN` and `±Infinity`.  All numeric values exercised by the
  program (integers and finite decimal fractions) are represented exactly;
  double-precision rounding is never observable on them.
* The regular expressions used by the code are embedded via a small
  backtracking regex engine (`RE`) with JavaScript semantics: leftmost match,
  greedy/lazy quantifiers over character classes, word boundaries, and
  end-of-input anchors.  Each concrete regex of the source is transcribed
  into an `RE` value.
* Effects (HTTP fetch, file reads) are modelled by oracle functions in a
  `World` structure; a failed/timed-out fetch or an unreadable file is the
  oracle returning `none`.
-/

namespace MergeSvg

set_option maxRecDepth 16384

/-! ## JavaScript character classes and string helpers -/

/-- The JS `\s` class (also the set trimmed by `String.prototype.trim`):
whitespace, line terminators, NBSP, BOM and the Unicode space separators. -/
def isJsWs (c : Char) : Bool :=
  c = ' ' || c = '\t' || c = '\n' || c = '\r' ||
  c.toNat = 0x0b || c.toNat = 0x0c || c.toNat = 0xa0 || c.toNat = 0x1680 ||
  (0x2000 ≤ c.toNat && c.toNat ≤ 0x200a) ||
  c.toNat = 0x2028 || c.toNat = 0x2029 || c.toNat = 0x202f ||
  c.toNat = 0x205f || c.toNat = 0x3000 || c.toNat = 0xfeff

/-- The JS `\w` class used by `\b` word boundaries. -/
def isWordChar (c : Char) : Bool :=
  (c ≥ 'a' && c ≤ 'z') || (c ≥ 'A' && c ≤ 'Z') || (c ≥ '0' && c ≤ '9') || c = '_'

/-- Case folding of the JS `i` flag, restricted to ASCII (all the
case-insensitive regex literals in the source are ASCII). -/
def ciEq (a b : Char) : Bool := a.toLower = b.toLower

def dropWhileWs (l : List Char) : List Char := l.dropWhile isJsWs

/-- JS `String.prototype.trim`. -/
def jsTrimL (l : List Char) : List Char :=
  (l.dropWhile isJsWs).reverse.dropWhile isJsWs |>.reverse

def jsTrim (s : String) : String := ⟨jsTrimL s.data⟩

/-- `needle.isPrefixOf hay` with case-sensitive character equality. -/
def startsWith : List Char → List Char → Bool
  | [], _ => true
  | _ :: _, [] => false
  | a :: as, b :: bs => a = b && startsWith as bs

/-- Case-insensitive prefix test (JS `i` flag). -/
def startsWithCI : List Char → List Char → Bool
  | [], _ => true
  | _ :: _, [] => false
  | a :: as, b :: bs => ciEq a b && startsWithCI as bs

/-- JS `String.prototype.includes` (case-sensitive substring test). -/
def hasSub (needle : List Char) : List Char → Bool
  | [] => startsWith needle []
  | c :: cs => startsWith needle (c :: cs) || hasSub needle cs

/-- Case-insensitive substring test (used for `/;base64/i.test`). -/
def hasSubCI (needle : List Char) : List Char → Bool
  | [] => startsWithCI needle []
  | c :: cs => startsWithCI needle (c :: cs) || hasSubCI needle cs

/-- String-level `includes`. -/
def strIncludes (hay needle : String) : Bool := hasSub needle.data hay.data

/-! ## JavaScript numbers

JS numbers are modelled exactly: a rational for the finite values plus the
special values `NaN` and `±Infinity`.  Every numeric value the program
actually produces (integers, finite decimal fractions) is exact in this
model; the only divergence from IEEE doubles is for magnitudes beyond
`1e309`, which no layout exercised here contains. -/

inductive JNum where
  | fin (q : ℚ)
  | nan
  | inf
  | ninf
deriving DecidableEq, Repr

instance : OfNat JNum n := ⟨.fin n⟩

/-- JS truthiness of a number: `0` and `NaN` are falsy. -/
def JNum.truthy : JNum → Bool
  | .fin q => q != 0
  | .nan => false
  | .inf => true
  | .ninf => true

/-- `Math.round`: round half toward positive infinity. -/
def jsRound : JNum → JNum
  | .fin q => .fin (⌊q + 1/2⌋ : ℤ)
  | .nan => .nan
  | .inf => .inf
  | .ninf => .ninf

def isDigit (c : Char) : Bool := '0' ≤ c && c ≤ '9'

def isHexDigit (c : Char) : Bool :=
  isDigit c || ('a' ≤ c && c ≤ 'f') || ('A' ≤ c && c ≤ 'F')

def hexDigitVal (c : Char) : Nat :=
  if isDigit c then c.toNat - '0'.toNat
  else if 'a' ≤ c && c ≤ 'f' then c.toNat - 'a'.toNat + 10
  else if 'A' ≤ c && c ≤ 'F' then c.toNat - 'A'.toNat + 10
  else 0

def digitsVal (base : Nat) (val : Char → Nat) (l : List Char) : Nat :=
  l.foldl (fun acc c => acc * base + val c) 0

/-- Split a maximal run of decimal digits off the front. -/
def spanDigits (l : List Char) : List Char × List Char :=
  (l.takeWhile isDigit, l.dropWhile isDigit)

/-- Exponent part of a JS decimal numeric literal; the whole rest of the
string must be consumed. -/
def parseExpPart (mantissa : ℚ) : List Char → Option ℚ
  | [] => some mantissa
  | e :: r =>
    if e = 'e' || e = 'E' then
      let (neg, r2) : Bool × List Char :=
        match r with
        | '+' :: r2 => (false, r2)
        | '-' :: r2 => (true, r2)
        | r2 => (false, r2)
      let (ds, r3) := spanDigits r2
      if ds = [] || r3 ≠ [] then none
      else
        let ex := digitsVal 10 (fun c => c.toNat - '0'.toNat) ds
        some (if neg then mantissa / 10 ^ ex else mantissa * 10 ^ ex)
    else none

/-- Unsigned JS decimal literal: `digits [. digits] [exp]` or `. digits [exp]`,
consuming the entire input. -/
def parseDecLit (l : List Char) : Option ℚ :=
  let (ip, r1) := spanDigits l
  match r1 with
  | '.' :: r2 =>
    let (fp, r3) := spanDigits r2
    if ip = [] && fp = [] then none
    else
      let d10 := digitsVal 10 (fun c => c.toNat - '0'.toNat)
      parseExpPart ((d10 ip : ℚ) + (d10 fp : ℚ) / 10 ^ fp.length) r3
  | _ =>
    if ip = [] then none
    else parseExpPart (digitsVal 10 (fun c => c.toNat - '0'.toNat) ip : ℚ) r1

/-- Non-decimal integer literals `0x…`, `0o…`, `0b…` (no sign allowed). -/
def parseRadixLit (l : List Char) : Option (Option ℚ) :=
  match l with
  | '0' :: x :: r =>
    let radix : Option Nat :=
      if x = 'x' || x = 'X' then some 16
      else if x = 'o' || x = 'O' then some 8
      else if x = 'b' || x = 'B' then some 2
      else none
    match radix with
    | some b =>
      let ok (c : Char) : Bool :=
        if b = 16 then isHexDigit c
        else if b = 8 then '0' ≤ c && c ≤ '7'
        else c = '0' || c = '1'
      some (if r ≠ [] && r.all ok then some (digitsVal b hexDigitVal r : ℚ) else none)
    | none => none
  | _ => none

/-- JS `Number(string)` conversion. -/
def jsStrToNum (s : String) : JNum :=
  let t := jsTrimL s.data
  if t = [] then .fin 0
  else
    match parseRadixLit t with
    | some (some q) => .fin q
    | some none => .nan
    | none =>
      let (neg, body) : Bool × List Char :=
        match t with
        | '+' :: r => (false, r)
        | '-' :: r => (true, r)
        | r => (false, r)
      if body = "Infinity".data then (if neg then .ninf else .inf)
      else
        match parseDecLit body with
        | some q => .fin (if neg then -q else q)
        | none => .nan

/-- JS `parseInt(s, 16)`: leading whitespace, optional sign, optional `0x`
prefix, then the maximal run of hex digits; `NaN` if that run is empty. -/
def parseIntSixteen (s : String) : JNum :=
  let t := (s.data).dropWhile isJsWs
  let (neg, r1) : Bool × List Char :=
    match t with
    | '+' :: r => (false, r)
    | '-' :: r => (true, r)
    | r => (false, r)
  let r2 : List Char :=
    match r1 with
    | '0' :: x :: r => if x = 'x' || x = 'X' then r else r1
    | _ => r1
  let ds := r2.takeWhile isHexDigit
  if ds = [] then .nan
  else .fin (if neg then -(digitsVal 16 hexDigitVal ds : ℚ) else (digitsVal 16 hexDigitVal ds : ℚ))

/-! ## Number-to-string conversion (template literals) -/

/-- Decimal rendering of a rational whose reduced denominator divides a power
of ten — which covers every finite number the program ever prints.  For other
denominators (never produced by the code) a fraction marker is returned. -/
def ratDecimalStr (q : ℚ) : String :=
  let sign := if q < 0 then "-" else ""
  let n := q.num.natAbs
  let d := q.den
  match (List.range 65).find? (fun k => (10 ^ k * n) % d = 0) with
  | some k =>
    let m := 10 ^ k * n / d
    let digits := Nat.repr m
    if k = 0 then sign ++ digits
    else
      let padded :=
        if digits.length ≤ k then String.mk (List.replicate (k + 1 - digits.length) '0') ++ digits
        else digits
      let ip := String.mk (padded.data.take (padded.length - k))
      let fp := String.mk (padded.data.drop (padded.length - k))
      sign ++ ip ++ "." ++ fp
  | none => sign ++ Nat.repr n ++ "/" ++ Nat.repr d

/-- JS number-to-string conversion as it appears in template literals. -/
def jnumToString : JNum → String
  | .fin q => ratDecimalStr q
  | .nan => "NaN"
  | .inf => "Infinity"
  | .ninf => "-Infinity"

/-! ## UTF-8 -/

/-- UTF-8 encoding of one scalar value (`Buffer` writes strings as UTF-8). -/
def utf8EncodeChar (c : Char) : List Nat :=
  let n := c.toNat
  if n < 0x80 then [n]
  else if n < 0x800 then [0xc0 + n / 64, 0x80 + n % 64]
  else if n < 0x10000 then [0xe0 + n / 4096, 0x80 + n / 64 % 64, 0x80 + n % 64]
  else [0xf0 + n / 262144, 0x80 + n / 4096 % 64, 0x80 + n / 64 % 64, 0x80 + n % 64]

def utf8Encode (l : List Char) : List Nat := l.flatMap utf8EncodeChar

def isCont (b : Nat) : Bool := 0x80 ≤ b && b < 0xc0

def replChar : Char := Char.ofNat 0xfffd

/-- Lenient UTF-8 decoding as performed by `buffer.toString('utf8')`:
invalid, overlong, surrogate or truncated sequences become U+FFFD.  (The
exact number of replacement characters per malformed run is a secondary
detail of Node's decoder; no theorem below depends on it, only on the fact
that malformed bytes never decode to ASCII text.) -/
def utf8DecodeLooseAux : Nat → List Nat → List Char
  | 0, _ => []
  | _ + 1, [] => []
  | f + 1, b :: r =>
    if b < 0x80 then Char.ofNat b :: utf8DecodeLooseAux f r
    else if b < 0xc2 then replChar :: utf8DecodeLooseAux f r
    else if b < 0xe0 then
      match r[0]? with
      | some b2 =>
        if isCont b2 then
          Char.ofNat ((b - 0xc0) * 64 + (b2 - 0x80)) :: utf8DecodeLooseAux f (r.drop 1)
        else replChar :: utf8DecodeLooseAux f r
      | none => replChar :: utf8DecodeLooseAux f r
    else if b < 0xf0 then
      match r[0]?, r[1]? with
      | some b2, some b3 =>
        if isCont b2 && isCont b3 then
          let n := (b - 0xe0) * 4096 + (b2 - 0x80) * 64 + (b3 - 0x80)
          (if n < 0x800 || (0xd800 ≤ n && n < 0xe000) then replChar else Char.ofNat n) ::
            utf8DecodeLooseAux f (r.drop 2)
        else replChar :: utf8DecodeLooseAux f r
      | _, _ => replChar :: utf8DecodeLooseAux f r
    else if b < 0xf5 then
      match r[0]?, r[1]?, r[2]? with
      | some b2, some b3, some b4 =>
        if isCont b2 && isCont b3 && isCont b4 then
          let n := (b - 0xf0) * 262144 + (b2 - 0x80) * 4096 + (b3 - 0x80) * 64 + (b4 - 0x80)
          (if n < 0x10000 || 0x110000 ≤ n then replChar else Char.ofNat n) ::
            utf8DecodeLooseAux f (r.drop 3)
        else replChar :: utf8DecodeLooseAux f r
      | _, _, _ => replChar :: utf8DecodeLooseAux f r
    else replChar :: utf8DecodeLooseAux f r

/-- Decoding one scalar consumes at least one byte, so `l.length` steps
always suffice; the fuel only makes the recursion structural. -/
def utf8DecodeLoose (l : List Nat) : List Char := utf8DecodeLooseAux l.length l

/-- Strict UTF-8 decoding (used by `decodeURIComponent`, which throws on
malformed sequences). -/
def utf8DecodeStrictAux : Nat → List Nat → Option (List Char)
  | 0, _ => some []
  | _ + 1, [] => some []
  | f + 1, b :: r =>
    if b < 0x80 then (utf8DecodeStrictAux f r).map (Char.ofNat b :: ·)
    else if b < 0xc2 then none
    else if b < 0xe0 then
      match r[0]? with
      | some b2 =>
        if isCont b2 then
          (utf8DecodeStrictAux f (r.drop 1)).map (Char.ofNat ((b - 0xc0) * 64 + (b2 - 0x80)) :: ·)
        else none
      | none => none
    else if b < 0xf0 then
      match r[0]?, r[1]? with
      | some b2, some b3 =>
        if isCont b2 && isCont b3 then
          let n := (b - 0xe0) * 4096 + (b2 - 0x80) * 64 + (b3 - 0x80)
          if n < 0x800 || (0xd800 ≤ n && n < 0xe000) then none
          else (utf8DecodeStrictAux f (r.drop 2)).map (Char.ofNat n :: ·)
        else none
      | _, _ => none
    else if b < 0xf5 then
      match r[0]?, r[1]?, r[2]? with
      | some b2, some b3, some b4 =>
        if isCont b2 && isCont b3 && isCont b4 then
          let n := (b - 0xf0) * 262144 + (b2 - 0x80) * 4096 + (b3 - 0x80) * 64 + (b4 - 0x80)
          if n < 0x10000 || 0x110000 ≤ n then none
          else (utf8DecodeStrictAux f (r.drop 3)).map (Char.ofNat n :: ·)
        else none
      | _, _, _ => none
    else none

def utf8DecodeStrict (l : List Nat) : Option (List Char) := utf8DecodeStrictAux l.length l

/-! ## Base64 (`Buffer.from(s, 'base64')` and encoding) -/

def b64CharOfVal (n : Nat) : Char :=
  if n < 26 then Char.ofNat ('A'.toNat + n)
  else if n < 52 then Char.ofNat ('a'.toNat + n - 26)
  else if n < 62 then Char.ofNat ('0'.toNat + n - 52)
  else if n = 62 then '+'
  else '/'

def isB64Char (c : Char) : Bool :=
  ('A' ≤ c && c ≤ 'Z') || ('a' ≤ c && c ≤ 'z') || isDigit c || c = '+' || c = '/'

def b64ValOfChar (c : Char) : Nat :=
  if 'A' ≤ c && c ≤ 'Z' then c.toNat - 'A'.toNat
  else if 'a' ≤ c && c ≤ 'z' then c.toNat - 'a'.toNat + 26
  else if isDigit c then c.toNat - '0'.toNat + 52
  else if c = '+' then 62
  else 63

/-- Decode base64 characters in groups of four; a trailing group of three
characters yields two bytes, of two characters one byte, of one character
nothing (fewer than 8 leftover bits). -/
def b64Quads : List Char → List Nat
  | c1 :: c2 :: c3 :: c4 :: r =>
    let v1 := b64ValOfChar c1
    let v2 := b64ValOfChar c2
    let v3 := b64ValOfChar c3
    let v4 := b64ValOfChar c4
    (v1 * 4 + v2 / 16) :: (v2 % 16 * 16 + v3 / 4) :: (v3 % 4 * 64 + v4) :: b64Quads r
  | [c1, c2, c3] =>
    let v1 := b64ValOfChar c1
    let v2 := b64ValOfChar c2
    let v3 := b64ValOfChar c3
    [v1 * 4 + v2 / 16, v2 % 16 * 16 + v3 / 4]
  | [c1, c2] =>
    let v1 := b64ValOfChar c1
    let v2 := b64ValOfChar c2
    [v1 * 4 + v2 / 16]
  | _ => []

/-- Node's lenient base64 decoder ignores every character outside the base64
alphabet (whitespace, `=` padding, arbitrary other text). -/
def b64DecodeBytes (l : List Char) : List Nat := b64Quads (l.filter isB64Char)

/-- `Buffer.from(s, 'base64').toString('utf8')`. -/
def b64DecodeStr (s : String) : String := ⟨utf8DecodeLoose (b64DecodeBytes s.data)⟩

/-- Canonical base64 encoding with `=` padding (`buffer.toString('base64')`). -/
def b64EncodeBytes : List Nat → List Char
  | b1 :: b2 :: b3 :: r =>
    b64CharOfVal (b1 / 4) :: b64CharOfVal (b1 % 4 * 16 + b2 / 16) ::
    b64CharOfVal (b2 % 16 * 4 + b3 / 64) :: b64CharOfVal (b3 % 64) :: b64EncodeBytes r
  | [b1, b2] =>
    [b64CharOfVal (b1 / 4), b64CharOfVal (b1 % 4 * 16 + b2 / 16),
     b64CharOfVal (b2 % 16 * 4), '=']
  | [b1] =>
    [b64CharOfVal (b1 / 4), b64CharOfVal (b1 % 4 * 16), '=', '=']
  | [] => []

/-- `Buffer.from(s, 'utf8').toString('base64')`. -/
def b64EncodeStr (s : String) : String := ⟨b64EncodeBytes (utf8Encode s.data)⟩

/-! ## Percent decoding (`decodeURIComponent`) -/

/-- Collect the bytes written by `decodeURIComponent`: literal characters
are re-encoded as UTF-8, `%XY` escapes contribute the byte `0xXY`; a `%` not
followed by two hex digits is malformed (`URIError`). -/
def pctBytes : List Char → Option (List Nat)
  | [] => some []
  | '%' :: h1 :: h2 :: r =>
    if isHexDigit h1 && isHexDigit h2 then
      (pctBytes r).map ((hexDigitVal h1 * 16 + hexDigitVal h2) :: ·)
    else none
  | '%' :: _ => none
  | c :: r => (pctBytes r).map (utf8EncodeChar c ++ ·)

/-- `decodeURIComponent`: `none` models a thrown `URIError` (malformed
escape or escape bytes that are not valid UTF-8). -/
def decodeURIComponent (s : String) : Option String :=
  match pctBytes s.data with
  | none => none
  | some bs => (utf8DecodeStrict bs).map (⟨·⟩)

/-! ## SHA-1 (`crypto.createHash('sha1')`), on 32-bit words as `Nat % 2^32` -/

def w32 : Nat := 4294967296

def rotl32 (n k : Nat) : Nat := ((n <<< k) % w32) ||| (n >>> (32 - k))

/-- Standard SHA-1 padding: `0x80`, zeros to 56 mod 64, 64-bit big-endian
bit length. -/
def sha1Pad (msg : List Nat) : List Nat :=
  let len := msg.length
  let padZeros := (119 - len % 64) % 64
  msg ++ 0x80 :: List.replicate padZeros 0 ++
    (List.range 8).map (fun i => ((len * 8) >>> ((7 - i) * 8)) % 256)

/-- Big-endian 32-bit words from bytes. -/
def bytesToWords : List Nat → List Nat
  | b1 :: b2 :: b3 :: b4 :: r =>
    (b1 * 16777216 + b2 * 65536 + b3 * 256 + b4) :: bytesToWords r
  | _ => []

/-- The 80-word message schedule of one SHA-1 block. -/
def sha1Schedule (ws : List Nat) : List Nat :=
  (List.range 80).foldl
    (fun acc i =>
      if i < 16 then acc ++ [ws.getD i 0]
      else
        acc ++ [rotl32 (acc.getD (i - 3) 0 ^^^ acc.getD (i - 8) 0 ^^^
                        acc.getD (i - 14) 0 ^^^ acc.getD (i - 16) 0) 1])
    []

def Sha1St : Type := Nat × Nat × Nat × Nat × Nat

def sha1Round (st : Sha1St) (iw : Nat × Nat) : Sha1St :=
  let (a, b, c, d, e) := st
  let (i, wi) := iw
  let f :=
    if i < 20 then (b &&& c) ||| ((b ^^^ 0xffffffff) &&& d)
    else if i < 40 then b ^^^ c ^^^ d
    else if i < 60 then (b &&& c) ||| (b &&& d) ||| (c &&& d)
    else b ^^^ c ^^^ d
  let k :=
    if i < 20 then 0x5a827999
    else if i < 40 then 0x6ed9eba1
    else if i < 60 then 0x8f1bbcdc
    else 0xca62c1d6
  let temp := (rotl32 a 5 + f + e + k + wi) % w32
  (temp, a, rotl32 b 30, c, d)

def sha1Block (st : Sha1St) (blockWords : List Nat) : Sha1St :=
  let (h0, h1, h2, h3, h4) := st
  let (a, b, c, d, e) := (sha1Schedule blockWords).enum.foldl sha1Round st
  ((h0 + a) % w32, (h1 + b) % w32, (h2 + c) % w32, (h3 + d) % w32, (h4 + e) % w32)

def sha1BlocksAux : Nat → List Nat → Sha1St → Sha1St
  | 0, _, st => st
  | _ + 1, [], st => st
  | f + 1, w :: ws, st =>
    sha1BlocksAux f ((w :: ws).drop 16) (sha1Block st ((w :: ws).take 16))

/-- One block consumes sixteen words, so `ws.length` steps always suffice. -/
def sha1Blocks (ws : List Nat) (st : Sha1St) : Sha1St := sha1BlocksAux ws.length ws st

def natToHex : Nat → Nat → List Char
  | _, 0 => []
  | n, d + 1 =>
    natToHex (n / 16) d ++
      [if n % 16 < 10 then Char.ofNat ('0'.toNat + n % 16)
       else Char.ofNat ('a'.toNat + n % 16 - 10)]

/-- `crypto.createHash('sha1').update(String(s)).digest('hex')`. -/
def sha1Hex (s : String) : String :=
  let words := bytesToWords (sha1Pad (utf8Encode s.data))
  let (h0, h1, h2, h3, h4) :=
    sha1Blocks words (0x67452301, 0xefcdab89, 0x98badcfe, 0x10325476, 0xc3d2e1f0)
  ⟨natToHex h0 8 ++ natToHex h1 8 ++ natToHex h2 8 ++ natToHex h3 8 ++ natToHex h4 8⟩

/-! ## A small backtracking regex engine

Just enough of JavaScript's regex semantics for the patterns the source
uses: character classes, sequencing, ordered alternation, greedy and lazy
quantifiers over character classes, optional groups, capture groups, word
boundaries and the end anchor.  Matching is leftmost-first with full
backtracking, exactly the JS behaviour.  The two-character literal `0s`
(case-insensitive, as under the `i` flag) is a dedicated constructor so
that a required occurrence of it can be read off syntactically. -/

inductive RE where
  | eps
  | cls (p : Char → Bool)
  | seq (a b : RE)
  | alt (a b : RE)
  | star (p : Char → Bool) (lazy : Bool)
  | opt (r : RE)
  | grp (n : Nat) (r : RE)
  | wb
  | eos
  | zs

/-- Matcher state: the previous character (for `\b`), the remaining input,
and the captures recorded so far. -/
structure MSt where
  prev : Option Char
  rest : List Char
  caps : List (Nat × List Char)

/-- Quantifier loop over a character class.  Greedy tries the longer match
first, lazy tries the continuation first. -/
def starLoop (p : Char → Bool) (lazy : Bool) (k : MSt → Option MSt) :
    Option Char → List Char → List (Nat × List Char) → Option MSt
  | prev, [], caps => k ⟨prev, [], caps⟩
  | prev, c :: cs, caps =>
    if p c then
      if lazy then k ⟨prev, c :: cs, caps⟩ <|> starLoop p lazy k (some c) cs caps
      else starLoop p lazy k (some c) cs caps <|> k ⟨prev, c :: cs, caps⟩
    else k ⟨prev, c :: cs, caps⟩

/-- CPS backtracking matcher. -/
def mmatch : RE → MSt → (MSt → Option MSt) → Option MSt
  | .eps, st, k => k st
  | .cls p, st, k =>
    match st.rest with
    | c :: cs => if p c then k ⟨some c, cs, st.caps⟩ else none
    | [] => none
  | .seq a b, st, k => mmatch a st (fun st1 => mmatch b st1 k)
  | .alt a b, st, k => mmatch a st k <|> mmatch b st k
  | .star p lz, st, k => starLoop p lz k st.prev st.rest st.caps
  | .opt r, st, k => mmatch r st k <|> k st
  | .grp n r, st, k =>
    mmatch r st (fun st1 =>
      k ⟨st1.prev, st1.rest, (n, st.rest.take (st.rest.length - st1.rest.length)) :: st1.caps⟩)
  | .wb, st, k =>
    let before := match st.prev with | some c => isWordChar c | none => false
    let after := match st.rest with | c :: _ => isWordChar c | [] => false
    if before ≠ after then k st else none
  | .eos, st, k => match st.rest with | [] => k st | _ => none
  | .zs, st, k =>
    match st.rest with
    | '0' :: c :: cs => if c = 's' || c = 'S' then k ⟨some c, cs, st.caps⟩ else none
    | _ => none

/-- Result of a successful search: text before the match, the matched text,
the text after it, and the captures. -/
structure MRes where
  pre : List Char
  matched : List Char
  post : List Char
  caps : List (Nat × List Char)

/-- Leftmost match: try each start position from the left. -/
def findFirstAux (r : RE) (prev : Option Char) (s : List Char) : Option MRes :=
  match mmatch r ⟨prev, s, []⟩ some with
  | some st => some ⟨[], s.take (s.length - st.rest.length), st.rest, st.caps⟩
  | none =>
    match s with
    | [] => none
    | c :: cs =>
      (findFirstAux r (some c) cs).map (fun x => ⟨c :: x.pre, x.matched, x.post, x.caps⟩)

def reTest (r : RE) (s : List Char) : Bool := (findFirstAux r none s).isSome

/-- Global `String.prototype.replace` with an empty replacement (all the
source's global replaces delete the match); a zero-length match advances by
one character as in JS. -/
def replaceAllAux (r : RE) (fuel : Nat) (prev : Option Char) (s : List Char) : List Char :=
  match fuel with
  | 0 => s
  | fuel + 1 =>
    match findFirstAux r prev s with
    | none => s
    | some res =>
      if res.matched = [] then
        match res.post with
        | [] => res.pre
        | c :: cs => res.pre ++ c :: replaceAllAux r fuel (some c) cs
      else
        let prev' :=
          match (res.pre ++ res.matched).getLast? with
          | some c => some c
          | none => prev
        res.pre ++ replaceAllAux r fuel prev' res.post

def replaceAllEmpty (r : RE) (s : List Char) : List Char :=
  replaceAllAux r (s.length + 1) none s

/-- Repeated `exec` on a `g`-flagged regex, collecting captures of every
match (used to iterate the attribute regex). -/
def execAllAux (r : RE) (fuel : Nat) (prev : Option Char) (s : List Char) :
    List (List (Nat × List Char)) :=
  match fuel with
  | 0 => []
  | fuel + 1 =>
    match findFirstAux r prev s with
    | none => []
    | some res =>
      if res.matched = [] then
        match res.post with
        | [] => [res.caps]
        | c :: cs => res.caps :: execAllAux r fuel (some c) cs
      else
        let prev' :=
          match (res.pre ++ res.matched).getLast? with
          | some c => some c
          | none => prev
        res.caps :: execAllAux r fuel prev' res.post

def execAll (r : RE) (s : List Char) : List (List (Nat × List Char)) :=
  execAllAux r (s.length + 1) none s

/-- Look up a capture group in a match result. -/
def getCap (caps : List (Nat × List Char)) (n : Nat) : Option (List Char) :=
  (caps.find? (fun x => x.1 = n)).map (fun x => x.2)

/-! ### Regex building blocks -/

def reSeqList : List RE → RE
  | [] => .eps
  | [r] => r
  | r :: rs => .seq r (reSeqList rs)

/-- Case-sensitive literal. -/
def lit (s : String) : RE := reSeqList (s.data.map (fun c => RE.cls (· = c)))

/-- Case-insensitive literal (the `i` flag). -/
def litCI (s : String) : RE := reSeqList (s.data.map (fun c => RE.cls (ciEq · c)))

def chc (c : Char) : RE := .cls (· = c)

/-- The JS `.` class (no `s` flag): everything but line terminators. -/
def isDotChar (c : Char) : Bool :=
  !(c = '\n' || c = '\r' || c.toNat = 0x2028 || c.toNat = 0x2029)

def isAsciiLetter (c : Char) : Bool :=
  ('a' ≤ c && c ≤ 'z') || ('A' ≤ c && c ≤ 'Z')

/-- The single-quote character (written numerically to keep string literals
quote-free). -/
def apos : Char := Char.ofNat 39

/-! ## The concrete regexes of `merge-layout.js` -/

/-- Body of `animation-duration\s*:\s*0s[^;]*;` (resp. `animation-delay…`),
the alternation inside the universal-block regex, where the terminating
semicolon is mandatory. -/
def zeroDeclSemi (prop : String) : RE :=
  reSeqList [litCI prop, .star isJsWs false, chc ':', .star isJsWs false, .zs,
             .star (· ≠ ';') false, chc ';']

/-- `animation-duration\s*:\s*0s[^;]*;?` / `animation-delay…` used on their
own, where the semicolon is optional. -/
def zeroDeclOpt (prop : String) : RE :=
  reSeqList [litCI prop, .star isJsWs false, chc ':', .star isJsWs false, .zs,
             .star (· ≠ ';') false, .opt (chc ';')]

/-- `/\*\s*\{[^}]*\b(animation-duration\s*:\s*0s[^;]*;|animation-delay\s*:\s*0s[^;]*;)[^}]*\}/gim` -/
def universalAnimBlockRE : RE :=
  reSeqList [chc '*', .star isJsWs false, chc '{', .star (· ≠ '}') false, .wb,
             .grp 1 (.alt (zeroDeclSemi "animation-duration") (zeroDeclSemi "animation-delay")),
             .star (· ≠ '}') false, chc '}']

/-- `/animation-duration\s*:\s*0s[^;]*;?/gim` -/
def durationZeroRE : RE := zeroDeclOpt "animation-duration"

/-- `/animation-delay\s*:\s*0s[^;]*;?/gim` -/
def delayZeroRE : RE := zeroDeclOpt "animation-delay"

def notSemiBrace (c : Char) : Bool := !(c = ';' || c = '}')

/-- `/animation\s*:\s*([^;}]*)\b0s\b([^;}]*)[;]?/gim` -/
def shorthandZeroRE : RE :=
  reSeqList [litCI "animation", .star isJsWs false, chc ':', .star isJsWs false,
             .grp 1 (.star notSemiBrace false), .wb, .zs, .wb,
             .grp 2 (.star notSemiBrace false), .opt (chc ';')]

/-- `/<svg([^>]*)>/i` -/
def svgOpenRE : RE :=
  reSeqList [chc '<', litCI "svg", .grp 1 (.star (· ≠ '>') false), chc '>']

/-- `/<\/svg>\s*$/i` -/
def svgCloseRE : RE :=
  reSeqList [chc '<', chc '/', litCI "svg", chc '>', .star isJsWs false, .eos]

def isAttrStart (c : Char) : Bool := isAsciiLetter c || c = '_' || c = ':'

def isAttrMore (c : Char) : Bool :=
  isAsciiLetter c || isDigit c || c = '-' || c = '_' || c = ':' || c = '.'

/-- A quoted attribute value `(['"])(.*?)\2` with the backreference expanded
into one alternative per quote character; the value is capture group `n`. -/
def quotedLazy (q : Char) (n : Nat) : RE :=
  reSeqList [chc q, .grp n (.star isDotChar true), chc q]

/-- `/(\b[a-zA-Z_:][-a-zA-Z0-9_:.]*)\s*=\s*(['"])(.*?)\2/g` (no `i` flag). -/
def attrRE : RE :=
  reSeqList [.grp 1 (reSeqList [.wb, .cls isAttrStart, .star isAttrMore false]),
             .star isJsWs false, chc '=', .star isJsWs false,
             .alt (quotedLazy apos 3) (quotedLazy '"' 3)]

/-- `/viewBox\s*=\s*(['"])(.*?)\1/i` (value is capture group 2). -/
def vbRE : RE :=
  reSeqList [litCI "viewBox", .star isJsWs false, chc '=', .star isJsWs false,
             .alt (quotedLazy apos 2) (quotedLazy '"' 2)]

def isUnitChar (c : Char) : Bool := isAsciiLetter c || c = '%'

def isNumChar (c : Char) : Bool := isDigit c || c = '.'

/-- `([0-9.]+)([a-z%]*)` — the number is capture group 2, the unit group 3. -/
def numUnitRE : RE :=
  reSeqList [.grp 2 (.seq (.cls isNumChar) (.star isNumChar false)),
             .grp 3 (.star isUnitChar false)]

/-- `/<svg[^>]*\b{name}\s*=\s*(['"])?([0-9.]+)([a-z%]*)\1?/i` with the
optional quote group and its optional backreference expanded into the three
ways it can match: single-quoted, double-quoted, or bare. -/
def dimAttrRE (name : String) : RE :=
  reSeqList [chc '<', litCI "svg", .star (· ≠ '>') false, .wb, litCI name,
             .star isJsWs false, chc '=', .star isJsWs false,
             .alt (reSeqList [chc apos, numUnitRE, .opt (chc apos)])
               (.alt (reSeqList [chc '"', numUnitRE, .opt (chc '"')]) numUnitRE)]

/-! ## Direct string helpers of `merge-layout.js` -/

/-- Scan of the lazy `[\s\S]*?\?>` part of the XML-prolog regex: drop up to
and including the first `?>`. -/
def findQEnd : List Char → Option (List Char)
  | [] => none
  | '?' :: '>' :: r => some r
  | _ :: r => findQEnd r

/-- `s.replace(/^\s*<\?xml[\s\S]*?\?>\s*/i, '').trim()` -/
def stripXmlProlog (s : String) : String :=
  let t := s.data.dropWhile isJsWs
  if startsWithCI "<?xml".data t then
    match findQEnd (t.drop 5) with
    | some r => jsTrim ⟨r.dropWhile isJsWs⟩
    | none => jsTrim s
  else jsTrim s

/-- `hex.replace('#', '')`: a non-global string-pattern replace removes only
the first occurrence. -/
def removeFirstHash : List Char → List Char
  | [] => []
  | '#' :: r => r
  | c :: r => c :: removeFirstHash r

/-- `String(val).replace(/[a-zA-Z%]+$/, '')`: strip the maximal trailing run
of letters and percent signs. -/
def stripTrailingUnits (l : List Char) : List Char :=
  (l.reverse.dropWhile (fun c => isAsciiLetter c || c = '%')).reverse

/-- The `([^,]*?),` part of the data-URI regex: split at the first comma. -/
def splitAtComma : List Char → Option (List Char × List Char)
  | [] => none
  | ',' :: r => some ([], r)
  | c :: r => (splitAtComma r).map (fun x => (c :: x.1, x.2))

/-- `/^data:([^,]*?),(.*)$/i`: anchored both ends, `.` cannot cross a line
terminator, so the payload must be free of them for the regex to match. -/
def matchDataUri (s : List Char) : Option (List Char × List Char) :=
  if startsWithCI "data:".data s then
    match splitAtComma (s.drop 5) with
    | some (meta, data) => if data.all isDotChar then some (meta, data) else none
    | none => none
  else none

/-- `String.prototype.split` on the separator class (whitespace or comma,
one or more): fields between maximal separator runs, with empty
leading/trailing fields kept as JS does.  The Bool flag records whether the
scanner is inside a separator run. -/
def splitWCAux : Bool → List Char → List Char → List (List Char)
  | true, _, [] => [[]]
  | false, acc, [] => [acc.reverse]
  | true, acc, c :: cs =>
    if isJsWs c || c = ',' then splitWCAux true acc cs else splitWCAux false [c] cs
  | false, acc, c :: cs =>
    if isJsWs c || c = ',' then acc.reverse :: splitWCAux true [] cs
    else splitWCAux false (c :: acc) cs

def splitWsComma (l : List Char) : List (List Char) := splitWCAux false [] l

/-! ## `merge-layout.js`: the pure functions -/

/-- `tryBase64Decode` (lines 40–54): standard base64 first, then the
URL-safe alphabet, accepting a decoding only if it contains `<svg`;
otherwise the input is returned as-is.  `Buffer.from(…, 'base64')` never
throws, so the `try` blocks are vacuous. -/
def tryBase64Decode (s : String) : String :=
  if s = "" then ""
  else
    let decoded := b64DecodeStr s
    if strIncludes decoded "<svg" then decoded
    else
      let safe : List Char :=
        s.data.map (fun c => if c = '-' then '+' else if c = '_' then '/' else c)
      let d2 := b64DecodeStr ⟨safe⟩
      if strIncludes d2 "<svg" then d2
      else s

/-- `sanitizeAnimationOverrides` (lines 61–80): the four global regex
deletions, in source order. -/
def sanitizeAnimationOverrides (svg : String) : String :=
  if svg = "" then svg
  else
    let out := replaceAllEmpty universalAnimBlockRE svg.data
    let out := replaceAllEmpty durationZeroRE out
    let out := replaceAllEmpty delayZeroRE out
    let out := replaceAllEmpty shorthandZeroRE out
    ⟨out⟩

/-- `decodeDataUri` (lines 86–97). -/
def decodeDataUri (uri : Option String) : Option String :=
  let u := match uri with | some s => s | none => ""
  match matchDataUri u.data with
  | none => none
  | some (meta, data) =>
    if hasSubCI ";base64".data meta then some (b64DecodeStr ⟨data⟩)
    else decodeURIComponent ⟨data⟩

/-- Attribute maps: insertion order preserved, later assignment to the same
name wins (JS object property overwrite). -/
abbrev Attrs : Type := List (String × String)

def attrsPut (m : Attrs) (k v : String) : Attrs := m ++ [(k, v)]

def attrsGet (m : Attrs) (k : String) : Option String :=
  (m.reverse.find? (fun x => x.1 = k)).map (fun x => x.2)

/-- `extractSvgParts` (lines 159–179): `none` models the thrown
`Error('No <svg> root element found')`. -/
def extractSvgParts (svgText : String) : Option (String × Attrs) :=
  let cleaned := (stripXmlProlog svgText).data
  match findFirstAux svgOpenRE none cleaned with
  | none => none
  | some om =>
    let openTagAttrs := (getCap om.caps 1).getD []
    let innerStart := om.pre.length + om.matched.length
    let innerEnd :=
      match findFirstAux svgCloseRE none cleaned with
      | some cm => cm.pre.length
      | none => cleaned.length
    let inner := (cleaned.drop innerStart).take (innerEnd - innerStart)
    let attrs := (execAll attrRE openTagAttrs).foldl
      (fun m caps =>
        match getCap caps 1, getCap caps 3 with
        | some n, some v => attrsPut m ⟨n⟩ ⟨v⟩
        | _, _ => m) []
    some (⟨inner⟩, attrs)

/-- `parseNumeric` (lines 181–185): `none` is JS `null` (absent input, or a
value that is not a finite number after stripping a trailing unit). -/
def parseNumeric (val : Option String) : Option ℚ :=
  match val with
  | none => none
  | some v =>
    match jsStrToNum ⟨stripTrailingUnits v.data⟩ with
    | .fin q => some q
    | _ => none

/-- Truthiness of `parseNumeric`'s result (`null`, `0` falsy). -/
def jsQTruthy : Option ℚ → Bool
  | some q => q != 0
  | none => false

/-- Truthiness of a `number | null` value (`null`, `0`, `NaN` falsy). -/
def optJTruthy : Option JNum → Bool
  | some n => n.truthy
  | none => false

/-- The width/height and fallback tiers of `getViewBoxString`. -/
def getViewBoxRest (attrs : Attrs) (fallbackW fallbackH : JNum) : String :=
  let w := parseNumeric (attrsGet attrs "width")
  let h := parseNumeric (attrsGet attrs "height")
  if jsQTruthy w && jsQTruthy h then
    "0 0 " ++ ratDecimalStr (w.getD 0) ++ " " ++ ratDecimalStr (h.getD 0)
  else if fallbackW.truthy && fallbackH.truthy then
    "0 0 " ++ jnumToString fallbackW ++ " " ++ jnumToString fallbackH
  else "0 0 100 100"

/-- `getViewBoxString` (lines 187–196). -/
def getViewBoxString (attrs : Attrs) (fallbackW fallbackH : JNum) : String :=
  match attrsGet attrs "viewBox" with
  | some vb => if vb = "" then getViewBoxRest attrs fallbackW fallbackH else jsTrim vb
  | none => getViewBoxRest attrs fallbackW fallbackH

/-- Result shape of `extractInnerSvgAttributes`: JS `null` is `none`, and a
width/height may be the JS number `NaN` (e.g. `Number('1.2.3')`). -/
structure InnerAttrs where
  width : Option JNum
  height : Option JNum
  viewBox : Option (List JNum)
deriving DecidableEq, Repr

/-- The `wMatch`/`hMatch` part of `extractInnerSvgAttributes`. -/
def innerWhFallback (s : List Char) : InnerAttrs :=
  let w := (findFirstAux (dimAttrRE "width") none s).bind (fun m => getCap m.caps 2)
  let h := (findFirstAux (dimAttrRE "height") none s).bind (fun m => getCap m.caps 2)
  { width := w.map (fun d => jsStrToNum ⟨d⟩),
    height := h.map (fun d => jsStrToNum ⟨d⟩),
    viewBox := none }

/-- The viewBox branch of `extractInnerSvgAttributes` (lines 200–209):
`some` exactly when the first `viewBox` attribute value splits into four
non-NaN numbers, in which case width/height are its third and fourth
entries. -/
def vbAttrs (s : List Char) : Option InnerAttrs :=
  match findFirstAux vbRE none s with
  | some m =>
    (match getCap m.caps 2 with
     | some vbRaw =>
       let parts := (splitWsComma (jsTrimL vbRaw)).map (fun p => jsStrToNum ⟨p⟩)
       if parts.length = 4 && parts.all (· ≠ JNum.nan) then
         some { width := some (parts.getD 2 .nan), height := some (parts.getD 3 .nan),
                viewBox := some parts }
       else none
     | none => none)
  | none => none

/-- `extractInnerSvgAttributes` (lines 198–215): the early return of the
viewBox branch, else the width/height attribute fallback. -/
def extractInnerSvgAttributes (svgText : String) : InnerAttrs :=
  match vbAttrs svgText.data with
  | some a => a
  | none => innerWhFallback svgText.data

/-- `hexToRgb` (lines 217–226): `none` is the JS `null` return; components
can be `NaN` when a 6-character string contains non-hex digits. -/
def hexToRgb (hex : String) : Option (JNum × JNum × JNum) :=
  if hex = "" then none
  else
    let h0 := jsTrimL (removeFirstHash hex.data)
    let h1 := if h0.length = 3 then h0.flatMap (fun c => [c, c]) else h0
    if h1.length ≠ 6 then none
    else
      some (parseIntSixteen ⟨h1.take 2⟩, parseIntSixteen ⟨(h1.drop 2).take 2⟩,
            parseIntSixteen ⟨(h1.drop 4).take 2⟩)

/-! ## Data model: layout descriptors and the effect oracles -/

/-- Oracles for the two effects of the resolver.  `fetch url = some body`
models a 2xx response (after redirects) arriving within the timeout;
`none` models any fetch failure, non-2xx status or timeout.  `readFile`
models `fs.readFile`; `none` is any error. -/
structure World where
  fetch : String → Option String
  readFile : String → Option String

structure Dims where
  width : Option ℚ
  height : Option ℚ
deriving DecidableEq, Repr

structure Pos where
  x : Option ℚ
  y : Option ℚ
deriving DecidableEq, Repr

/-- One layout element.  JSON fields that are absent are `none`; the
`typeof dims.width === 'number'` checks in the source restrict the numeric
fields to numbers, which the model's types build in. -/
structure Element where
  name : Option String
  id : Option String
  remoteURL : Option String
  remoteUrl : Option String
  file : Option String
  localPath : Option String
  content : Option String
  dimensions : Option Dims
  position : Option Pos
deriving DecidableEq, Repr

/-- An element with every field absent. -/
def emptyElement : Element :=
  ⟨none, none, none, none, none, none, none, none, none⟩

structure Canvas where
  width : Option ℚ
  height : Option ℚ
  backgroundColor : Option String
  transparency : Option ℚ
deriving DecidableEq, Repr

structure Layout where
  canvas : Option Canvas
  elements : Option (List Element)
deriving DecidableEq, Repr

/-- JS `a || b` for optional strings: falsy (`undefined` or empty) falls
through to `b`. -/
def jsOrStr : Option String → Option String → Option String
  | some s, b => if s = "" then b else some s
  | none, b => b

/-- JS `a || d` with a string default. -/
def jsOrStrD (a : Option String) (d : String) : String :=
  match a with
  | some s => if s = "" then d else s
  | none => d

/-- JS `a || d` for an optional number against a numeric default. -/
def jsOrQ : Option ℚ → ℚ → ℚ
  | some q, d => if q ≠ 0 then q else d
  | none, d => d

/-- JS `a || b` where `a : number | null` (used for the `targetW ||
fallback.width || 100` chains). -/
def orNumOpt : Option JNum → JNum → JNum
  | some n, b => if n.truthy then n else b
  | none, b => b

/-- Simplified model of `path.resolve(root, …parts)`: join with `/`.  The
program only ever joins its working directory with plain relative paths
(no `..` segments, no absolute overrides), where this is exact. -/
def resolvePath (root p : String) : String := root ++ "/" ++ p

/-! ## `resolveSvgSource` (lines 119–156) -/

/-- The remote block of `resolveSvgSource` (lines 120–134): guarded by
`remote && typeof remote === 'string' && remote.trim()`, then either the
data-URI branch or the http(s) branch, each accepting only marked SVG text,
every failure swallowed by the surrounding `try`. -/
def resolveRemoteStep (w : World) (remote : Option String) : Option String :=
  match remote with
  | some r =>
    if r ≠ "" && jsTrim r ≠ "" then
      if startsWithCI "data:".data r.data then
        match decodeDataUri (some r) with
        | some txt => if txt ≠ "" && strIncludes txt "<svg" then some txt else none
        | none => none
      else if startsWithCI "http://".data r.data || startsWithCI "https://".data r.data then
        match w.fetch r with
        | some txt => if txt ≠ "" && strIncludes txt "<svg" then some txt else none
        | none => none
      else none
    else none
  | none => none

/-- The local-path block of `resolveSvgSource` (lines 136–142). -/
def resolveLocalStep (w : World) (repoRoot : String) (localPath : Option String) :
    Option String :=
  match localPath with
  | some lp =>
    if lp ≠ "" then
      match w.readFile (resolvePath repoRoot lp) with
      | some txt => if txt ≠ "" && strIncludes txt "<svg" then some txt else none
      | none => none
    else none
  | none => none

/-- The deterministic-stash block of `resolveSvgSource` (lines 144–150). -/
def resolveCacheStep (w : World) (repoRoot : String) (remote : Option String) :
    Option String :=
  match remote with
  | some r =>
    if r ≠ "" then
      match w.readFile (resolvePath repoRoot ("out/remotes/" ++ sha1Hex r ++ ".svg")) with
      | some txt => if txt ≠ "" && strIncludes txt "<svg" then some txt else none
      | none => none
    else none
  | none => none

/-- `resolveSvgSource`, transcribed with the source's control flow: the
remote block (data URI or http(s) fetch, failures swallowed), the local
file, the SHA-1-named stash, then the inline fallback. -/
def resolveSvgSource (w : World) (repoRoot : String) (el : Element) : String :=
  match resolveRemoteStep w (jsOrStr el.remoteURL el.remoteUrl) with
  | some txt => txt
  | none =>
  match resolveLocalStep w repoRoot (jsOrStr el.file el.localPath) with
  | some txt => txt
  | none =>
  match resolveCacheStep w repoRoot (jsOrStr el.remoteURL el.remoteUrl) with
  | some txt => txt
  | none => tryBase64Decode (match el.content with | some c => c | none => "")

/-! ## `main` (lines 228–307) -/

/-- The per-element nested `<svg>` template (lines 288–291). -/
def elementFragment (x y : ℚ) (finalW finalH : JNum) (vb par inner : String) : String :=
  "  <svg x=\"" ++ ratDecimalStr x ++ "\" y=\"" ++ ratDecimalStr y ++
  "\" width=\"" ++ jnumToString finalW ++ "\" height=\"" ++ jnumToString finalH ++
  "\" viewBox=\"" ++ vb ++ "\"" ++ par ++ ">\n" ++ inner ++ "\n  </svg>\n"

/-- The `targetW || fallback.width || 100` chain (lines 273–274): the
layout's target dimension when present and truthy, else the fragment's
intrinsic dimension when truthy, else the fixed fallback 100. -/
def finalDim (target : Option ℚ) (intrinsic : Option JNum) : JNum :=
  orNumOpt (target.map JNum.fin) (orNumOpt intrinsic (.fin 100))

/-- `Number(pos.x || 0)` (line 284): the layout position, defaulting to 0. -/
def posX (el : Element) : ℚ := ((el.position.getD ⟨none, none⟩).x).getD 0

/-- `Number(pos.y || 0)` (line 285). -/
def posY (el : Element) : ℚ := ((el.position.getD ⟨none, none⟩).y).getD 0

/-- The geometry part of the element loop (lines 266–291), shared verbatim
between the final pipeline and the earlier iteration: target dimensions,
intrinsic fallback, viewBox, preserveAspectRatio, position, template. -/
def renderFragment (el : Element) (svgText inner : String) (attrs : Attrs) : String :=
  let dims := el.dimensions.getD ⟨none, none⟩
  let fb := extractInnerSvgAttributes svgText
  let finalW := finalDim dims.width fb.width
  let finalH := finalDim dims.height fb.height
  let viewBoxStr := getViewBoxString attrs finalW finalH
  let par :=
    match attrsGet attrs "preserveAspectRatio" with
    | some p => if p = "" then "" else " preserveAspectRatio=\"" ++ p ++ "\""
    | none => ""
  elementFragment (posX el) (posY el) finalW finalH viewBoxStr par inner

/-- One iteration of the element loop of the final pipeline (lines
252–296); `Except.error` carries the message of the caught exception. -/
def processElement (w : World) (repoRoot : String) (el : Element) : Except String String :=
  let resolved := resolveSvgSource w repoRoot el
  if resolved = "" then .error "No SVG source available for element"
  else
    let sanitized := sanitizeAnimationOverrides resolved
    let svgText := stripXmlProlog sanitized
    match extractSvgParts svgText with
    | none => .error "No <svg> root element found"
    | some (inner, attrs) => .ok (renderFragment el svgText inner attrs)

/-- `Math.round` for a finite canvas dimension: `⌊q + 1/2⌋`, written with
the executable `Rat.floor` and `mkRat` (see `intRound_eq`). -/
def intRound (q : ℚ) : ℤ := (q + mkRat 1 2).floor

/-- The background fill computation of `main` (lines 237–242). -/
def computeBgFill (canvas : Canvas) : String :=
  let bg := jsOrStrD canvas.backgroundColor "#ffffff"
  match canvas.transparency with
  | some a =>
    match hexToRgb bg with
    | some (r, g, b) =>
      "rgba(" ++ jnumToString r ++ ", " ++ jnumToString g ++ ", " ++ jnumToString b ++
      ", " ++ ratDecimalStr a ++ ")"
    | none => "rgba(255,255,255," ++ ratDecimalStr a ++ ")"
  | none => bg

/-- The document header template (lines 244–247). -/
def docHeader (canvasW canvasH : ℤ) (bgFill : String) : String :=
  "<?xml version=\"1.0\" encoding=\"utf-8\"?>\n<svg xmlns=\"http://www.w3.org/2000/svg\" width=\"" ++
  toString canvasW ++ "\" height=\"" ++ toString canvasH ++ "\" viewBox=\"0 0 " ++
  toString canvasW ++ " " ++ toString canvasH ++ "\">\n<rect width=\"" ++ toString canvasW ++
  "\" height=\"" ++ toString canvasH ++ "\" fill=\"" ++ bgFill ++ "\"/>\n"

/-- A warning line: the element's `name || id` and the error message. -/
abbrev Warning := Option String × String

/-- The element loop: successes become pieces, failures become warnings,
both in input order. -/
def mergeLoop (w : World) (repoRoot : String) : List Element → List String × List Warning
  | [] => ([], [])
  | el :: rest =>
    let tail := mergeLoop w repoRoot rest
    match processElement w repoRoot el with
    | .ok piece => (piece :: tail.1, tail.2)
    | .error msg => (tail.1, (jsOrStr el.name el.id, msg) :: tail.2)

structure MergeOut where
  doc : String
  warnings : List Warning
  exitCode : Nat
deriving DecidableEq, Repr

/-- `main` after the layout has been read and parsed, up to the final
write: the composed document, the warnings and the exit code (`0`, since
per-element failures are caught inside the loop). -/
def runMerge (w : World) (repoRoot : String) (layout : Layout) : MergeOut :=
  let canvas := layout.canvas.getD ⟨none, none, none, none⟩
  let canvasW := intRound (jsOrQ canvas.width 800)
  let canvasH := intRound (jsOrQ canvas.height 200)
  let bgFill := computeBgFill canvas
  let elements := layout.elements.getD []
  let out := mergeLoop w repoRoot elements
  { doc := docHeader canvasW canvasH bgFill ++ String.intercalate "\n" out.1 ++ "</svg>\n",
    warnings := out.2,
    exitCode := 0 }

/-! ## The earlier iteration of the pipeline (`src/unnamed/part_002`)

Same helpers (`tryBase64Decode`, `stripXmlProlog`, `extractSvgParts`,
`getViewBoxString`, `extractInnerSvgAttributes`, `hexToRgb` are textually
identical in both files); the element loop resolves only inline content and
does not sanitize animation overrides. -/

/-- One iteration of the element loop of `part_002` (lines 165–205). -/
def processElementOld (el : Element) : Except String String :=
  let raw := match el.content with | some c => c | none => ""
  let decoded := tryBase64Decode raw
  let svgText := stripXmlProlog decoded
  match extractSvgParts svgText with
  | none => .error "No <svg> root element found"
  | some (inner, attrs) => .ok (renderFragment el svgText inner attrs)

def mergeLoopOld : List Element → List String × List Warning
  | [] => ([], [])
  | el :: rest =>
    let tail := mergeLoopOld rest
    match processElementOld el with
    | .ok piece => (piece :: tail.1, tail.2)
    | .error msg => (tail.1, (jsOrStr el.name el.id, msg) :: tail.2)

/-- `main` of `part_002` after layout parse, up to the write. -/
def runMergeOld (layout : Layout) : MergeOut :=
  let canvas := layout.canvas.getD ⟨none, none, none, none⟩
  let canvasW := intRound (jsOrQ canvas.width 800)
  let canvasH := intRound (jsOrQ canvas.height 200)
  let bgFill := computeBgFill canvas
  let elements := layout.elements.getD []
  let out := mergeLoopOld elements
  { doc := docHeader canvasW canvasH bgFill ++ String.intercalate "\n" out.1 ++ "</svg>\n",
    warnings := out.2,
    exitCode := 0 }

/-! ## Specification-side definitions

The resolution strategies as the spec describes them: an ordered list of
independent strategies, each returning an optional result, the first
success winning.  These are compared with `resolveSvgSource` in claim C2. -/

/-- The element's remote reference (`el.remoteURL || el.remoteUrl`). -/
def remoteRef (el : Element) : Option String := jsOrStr el.remoteURL el.remoteUrl

/-- Strategy 1: a `data:` remote reference, decoded, accepted only if the
decoded text contains the SVG root marker. -/
def strategyDataUri (el : Element) : Option String :=
  match remoteRef el with
  | some r =>
    if jsTrim r ≠ "" && startsWithCI "data:".data r.data then
      match decodeDataUri (some r) with
      | some txt => if strIncludes txt "<svg" then some txt else none
      | none => none
    else none
  | none => none

/-- Strategy 2: an `http(s)` remote reference fetched with a bounded
timeout (the oracle), accepted only if the body contains the marker. -/
def strategyHttpFetch (w : World) (el : Element) : Option String :=
  match remoteRef el with
  | some r =>
    if jsTrim r ≠ "" &&
        (startsWithCI "http://".data r.data || startsWithCI "https://".data r.data) then
      match w.fetch r with
      | some txt => if strIncludes txt "<svg" then some txt else none
      | none => none
    else none
  | none => none

/-- Strategy 3: an explicit local file path resolved against the working
directory, accepted only if its content contains the marker. -/
def strategyLocalFile (w : World) (root : String) (el : Element) : Option String :=
  match jsOrStr el.file el.localPath with
  | some lp =>
    if lp ≠ "" then
      match w.readFile (resolvePath root lp) with
      | some txt => if strIncludes txt "<svg" then some txt else none
      | none => none
    else none
  | none => none

/-- Strategy 4: the cache file named by the SHA-1 hex hash of the remote
reference string plus `.svg`, under the cache directory `out/remotes`. -/
def strategyCache (w : World) (root : String) (el : Element) : Option String :=
  match remoteRef el with
  | some r =>
    if r ≠ "" then
      match w.readFile (resolvePath root ("out/remotes/" ++ sha1Hex r ++ ".svg")) with
      | some txt => if strIncludes txt "<svg" then some txt else none
      | none => none
    else none
  | none => none

/-- Strategy 5 (terminal): inline content, base64-decoded when that yields
marked SVG text (URL-safe variant included), else taken literally. -/
def strategyInline (el : Element) : String :=
  tryBase64Decode (match el.content with | some c => c | none => "")

/-- First success of an ordered strategy list. -/
def firstSome (l : List (Option String)) : Option String :=
  l.foldl (fun a b => match a with | some x => some x | none => b) none

/-- The spec's resolver: the ordered strategy table, falling through
silently, with the inline strategy as terminal fallback. -/
def resolveChain (w : World) (root : String) (el : Element) : String :=
  match firstSome [strategyDataUri el, strategyHttpFetch w el,
                   strategyLocalFile w root el, strategyCache w root el] with
  | some txt => txt
  | none => strategyInline el

/-! ### Predicates used for the sanitizer and parser claims -/

/-- A zero-second token: the character `0` immediately followed by `s` (or
`S`, since the sanitizer regexes carry the `i` flag).  Every sanitizer
pattern must consume such a token, so markup without it is untouched. -/
def has0s : List Char → Bool
  | [] => false
  | c :: r =>
    (c = '0' && (match r with | d :: _ => d = 's' || d = 'S' | [] => false)) || has0s r

/-- Syntactic marker: every way of matching the pattern consumes a `0s`
token (`zs` constructor).  Sound by `mmatch_req0s` below. -/
def req0s : RE → Bool
  | .seq a b => req0s a || req0s b
  | .alt a b => req0s a && req0s b
  | .grp _ r => req0s r
  | .zs => true
  | _ => false

/-- Claim C9's "a root `<svg …>` open tag can be located": somewhere in the
text there is (case-insensitively) `<svg` followed, after arbitrary
intervening text, by a `>`.  Stated on the lowercased text: ASCII-lowering
is exactly the `i` flag's effect here, and fixes no other character. -/
def svgOpenLocatable (s : List Char) : Prop :=
  ∃ pre mid post, s.map Char.toLower = pre ++ "<svg".data ++ mid ++ '>' :: post

/-- Case-insensitive `endsWith "</svg>"`, the shape `/<\/svg>\s*$/i` takes
on the already-trimmed text the parser applies it to. -/
def endsWithCloseTag (s : List Char) : Bool :=
  startsWithCI "</svg>".data (s.drop (s.length - 6)) && decide (6 ≤ s.length)

/-- The successful fragment of a processed element, if any. -/
def exceptPiece : Except String String → Option String
  | .ok s => some s
  | .error _ => none

/-- The warning of a failed element, if any (naming the element via
`el.name || el.id` as `console.warn` does). -/
def exceptWarn (el : Element) : Except String String → Option Warning
  | .ok _ => none
  | .error m => some (jsOrStr el.name el.id, m)

/-- The pieces of the output document: the fragments of the successfully
processed elements, in input order. -/
def pieceList (w : World) (root : String) (els : List Element) : List String :=
  els.filterMap (fun el => exceptPiece (processElement w root el))

/-- The logged warnings: one per failed element, in input order. -/
def warnList (w : World) (root : String) (els : List Element) : List Warning :=
  els.filterMap (fun el => exceptWarn el (processElement w root el))

/-! ### Concrete layouts used by the examples in the claims -/

/-- A world where every fetch fails (unreachable remote) and every file
read fails (no cache, no local files). -/
def failWorld : World := ⟨fun _ => none, fun _ => none⟩

/-- An element with only a remote URL: its fetch fails in `failWorld` and it
has no local or inline fallback. -/
def exRemoteEl : Element :=
  { emptyElement with name := some "remote-el", remoteUrl := some "https://example.test/a.svg" }

/-- An element with valid inline SVG content. -/
def exInlineEl : Element :=
  { emptyElement with name := some "inline-el", content := some "<svg>ok</svg>" }

/-- The two-element layout of the claim: one failing remote element, one
surviving inline element. -/
def exTwoLayout : Layout := ⟨none, some [exRemoteEl, exInlineEl]⟩

/-- An inline element whose declared viewBox carries a trailing space. -/
def exTrailingVbEl : Element :=
  { emptyElement with content := some "<svg viewBox=\"0 0 5 5 \"></svg>" }

/-- An inline element with width/height of 128×32 and no declared viewBox
(the example of the geometry claims). -/
def exWh128El : Element :=
  { emptyElement with content := some "<svg width=\"128\" height=\"32\">x</svg>" }

/-- An inline element declaring both a viewBox (50×60) and width/height
attributes (128×32), with no target dimensions. -/
def exVbPriorityEl : Element :=
  { emptyElement with
    content := some "<svg viewBox=\"0 0 50 60\" width=\"128\" height=\"32\"></svg>" }

/-- An inline element whose root `<svg>` tag is bare but which nests an
inner `<svg width="10" height="20">`, with no target dimensions: the
regex-extracted intrinsic dimensions come from the nested tag. -/
def exNestedDimsEl : Element :=
  { emptyElement with
    content := some "<svg><svg width=\"10\" height=\"20\"></svg></svg>" }

/-- Equality of per-element outcomes is decidable (used to evaluate the
concrete examples). -/
instance : DecidableEq (Except String String)
  | .ok a, .ok b =>
    if h : a = b then isTrue (by rw [h]) else isFalse (by simp [h])
  | .ok _, .error _ => isFalse (by simp)
  | .error _, .ok _ => isFalse (by simp)
  | .error a, .error b =>
    if h : a = b then isTrue (by rw [h]) else isFalse (by simp [h])

/-- The markup of the sanitizer claim's example: a universal zero-duration
block followed by an adjacent non-zero rule. -/
def c6ExampleInput : String :=
  "<style>* \x7b animation-duration: 0s !important; animation-delay: 0s !important; \x7d .spin \x7b animation: spin 2s linear infinite; \x7d</style>"

/-- The code's output on `c6ExampleInput`: the universal block deleted, the
`.spin` rule preserved verbatim. -/
def c6ExampleOutput : String :=
  "<style> .spin \x7b animation: spin 2s linear infinite; \x7d</style>"

/-- A rule with the non-zero duration `2.0s` — which still contains a
word-boundary `0s` token. -/
def c6NonZeroInput : String := "<style>.a \x7b animation: spin 2.0s linear; \x7d</style>"

/-- What the sanitizer actually produces on `c6NonZeroInput`: the whole
shorthand declaration is deleted. -/
def c6NonZeroOutput : String := "<style>.a \x7b  \x7d</style>"

/-- Markup on which one sanitizer pass splices flanking text into a fresh
zero-duration declaration, so a second pass removes more. -/
def c7SeamInput : String := "animation-duration:animation-duration: 0s x; 0s y;"

/-- A valid SVG text crafted so that its own lenient base64 decoding also
contains the marker `<svg`: the text content `xPHN2Zz4h` survives the
base64-alphabet filter as part of `svgxPHN2Zz4h/svg`, whose middle quads
decode to `<svg>!`. -/
def c8BadSvg : String := "<svg>xPHN2Zz4h</svg>"

/-- An element that carries only inline content: no remote URL and no
local file path in either spelling. -/
def inlineOnly (el : Element) : Prop :=
  el.remoteURL = none ∧ el.remoteUrl = none ∧ el.file = none ∧ el.localPath = none

/-- The element's inline content string (`el.content || ''`). -/
def inlineContent (el : Element) : String :=
  match el.content with | some c => c | none => ""

/-- The sanitizer leaves the element's decoded markup unchanged. -/
def sanitizeUnchanged (el : Element) : Prop :=
  sanitizeAnimationOverrides (tryBase64Decode (inlineContent el)) =
    tryBase64Decode (inlineContent el)

/-! ### Proof-level characterizations of the `<svg…>` open/close regexes -/

/-- The open-tag regex `/<svg[^>]*>/i` matches at the head of the text:
a case-insensitive `<svg` with some later `>` for the `[^>]*` run to
reach. -/
def openHere : List Char → Bool
  | c0 :: c1 :: c2 :: c3 :: rest =>
    c0 = '<' && ciEq c1 's' && ciEq c2 'v' && ciEq c3 'g' &&
      !(rest.dropWhile (fun c => c ≠ '>')).isEmpty
  | _ => false

/-- Some position of `s` is matched by the open-tag regex. -/
def hasOpenTag : List Char → Bool
  | [] => false
  | c :: cs => openHere (c :: cs) || hasOpenTag cs

/-- Where the inner slice stops: just before a trailing close tag when the
trimmed document ends with one, at the end of the document otherwise. -/
def innerEndOf (s : List Char) : Nat :=
  if endsWithCloseTag s then s.length - 6 else s.length

/-! # Theorems -/

/-! ## Helper lemmas -/

theorem intRound_eq (q : ℚ) : intRound q = ⌊q + 1/2⌋ := by
  have h : (mkRat 1 2 : ℚ) = 1 / 2 := by rw [Rat.mkRat_eq_div]; norm_num
  rw [intRound, h, Rat.floor_def', Rat.floor_def]

theorem emptyGuard_includes (t : String) :
    (decide (t ≠ "") && strIncludes t "<svg") = strIncludes t "<svg" := by
  by_cases h : t = ""
  · subst h; rfl
  · simp [h]

theorem emptyGuard_trim (r : String) :
    (decide (r ≠ "") && decide (jsTrim r ≠ "")) = decide (jsTrim r ≠ "") := by
  by_cases h : r = ""
  · subst h; rfl
  · simp [h]

theorem data_excl_http (l : List Char) (h : startsWithCI "data:".data l = true) :
    startsWithCI "http://".data l = false ∧ startsWithCI "https://".data l = false := by
  cases l with
  | nil => simp [startsWithCI] at h
  | cons c cs =>
    simp only [startsWithCI, ciEq, Bool.and_eq_true, decide_eq_true_eq] at h
    constructor <;>
      simp only [startsWithCI, ciEq, Bool.and_eq_false_iff, decide_eq_false_iff_not] <;>
      exact Or.inl (by rw [← h.1]; decide)

theorem includes_ne_empty {t : String} (h : strIncludes t "<svg" = true) : t ≠ "" := by
  intro he
  rw [he] at h
  exact absurd h (by decide)

theorem trim_ne_empty {r : String} (h : ¬jsTrim r = "") : r ≠ "" := by
  intro he
  rw [he] at h
  exact h rfl

theorem remote_step_split (w : World) (el : Element) :
    resolveRemoteStep w (remoteRef el) =
      (match strategyDataUri el with
       | some t => some t
       | none => strategyHttpFetch w el) := by
  unfold resolveRemoteStep strategyDataUri strategyHttpFetch
  cases remoteRef el with
  | none => rfl
  | some r =>
    dsimp only
    by_cases hT : jsTrim r = ""
    · simp [hT]
    · by_cases hD : startsWithCI "data:".data r.data = true
      · have hx := data_excl_http r.data hD
        cases decodeDataUri (some r) with
        | none => simp [hT, hD, hx.1, hx.2]
        | some txt =>
          by_cases hI : strIncludes txt "<svg" = true
          · simp [hT, hD, hx.1, hx.2, hI, includes_ne_empty hI, trim_ne_empty hT]
          · simp [hT, hD, hx.1, hx.2, hI]
      · by_cases hH :
          (startsWithCI "http://".data r.data || startsWithCI "https://".data r.data) = true
        · cases w.fetch r with
          | none => simp [hT, hD, hH]
          | some txt =>
            by_cases hI : strIncludes txt "<svg" = true
            · simp [hT, hD, hH, hI, includes_ne_empty hI, trim_ne_empty hT]
            · simp [hT, hD, hH, hI]
        · simp only [Bool.not_eq_true, Bool.or_eq_false_iff] at hH
          simp [hT, hD, hH.1, hH.2]

theorem local_step_eq (w : World) (root : String) (el : Element) :
    resolveLocalStep w root (jsOrStr el.file el.localPath) = strategyLocalFile w root el := by
  unfold resolveLocalStep strategyLocalFile
  cases jsOrStr el.file el.localPath with
  | none => rfl
  | some lp =>
    dsimp only
    by_cases hL : lp = ""
    · simp [hL]
    · cases w.readFile (resolvePath root lp) with
      | none => simp [hL]
      | some txt =>
        by_cases hI : strIncludes txt "<svg" = true
        · simp [hL, hI, includes_ne_empty hI]
        · simp [hL, hI]

theorem cache_step_eq (w : World) (root : String) (el : Element) :
    resolveCacheStep w root (remoteRef el) = strategyCache w root el := by
  unfold resolveCacheStep strategyCache
  cases remoteRef el with
  | none => rfl
  | some r =>
    dsimp only
    by_cases hR : r = ""
    · simp [hR]
    · cases w.readFile (resolvePath root ("out/remotes/" ++ sha1Hex r ++ ".svg")) with
      | none => simp [hR]
      | some txt =>
        by_cases hI : strIncludes txt "<svg" = true
        · simp [hR, hI, includes_ne_empty hI]
        · simp [hR, hI]

/-- C2: source resolution tries, in order, the remote data: URI, the
http(s) fetch, the explicit local file, the SHA-1-named cache file, and the
inline content (base64 else literal); the first success wins and every
failure falls through silently.  Stated as: `resolveSvgSource` equals the
ordered strategy table `resolveChain`. -/
theorem c2_resolution_order (w : World) (root : String) (el : Element) :
    resolveSvgSource w root el = resolveChain w root el := by
  unfold resolveSvgSource resolveChain firstSome
  simp only [List.foldl]
  rw [show jsOrStr el.remoteURL el.remoteUrl = remoteRef el from rfl,
      remote_step_split w el, local_step_eq w root el, cache_step_eq w root el]
  cases strategyDataUri el with
  | some t => rfl
  | none =>
    cases strategyHttpFetch w el with
    | some t => rfl
    | none =>
      cases strategyLocalFile w root el with
      | some t => rfl
      | none =>
        cases strategyCache w root el with
        | some t => rfl
        | none => rfl

theorem mergeLoop_spec (w : World) (root : String) (els : List Element) :
    mergeLoop w root els = (pieceList w root els, warnList w root els) := by
  induction els with
  | nil => rfl
  | cons el rest ih =>
    simp only [mergeLoop, pieceList, warnList, List.filterMap_cons, ih]
    cases processElement w root el <;> rfl

theorem runMerge_spec (w : World) (root : String) (layout : Layout) :
    runMerge w root layout =
      { doc := docHeader (intRound (jsOrQ (layout.canvas.getD ⟨none, none, none, none⟩).width 800))
          (intRound (jsOrQ (layout.canvas.getD ⟨none, none, none, none⟩).height 200))
          (computeBgFill (layout.canvas.getD ⟨none, none, none, none⟩)) ++
          String.intercalate "\n" (pieceList w root (layout.elements.getD [])) ++ "</svg>\n",
        warnings := warnList w root (layout.elements.getD []),
        exitCode := 0 } := by
  simp only [runMerge, mergeLoop_spec]

/-- C1: every element whose resolution or parsing fails is caught
per-element — a warning naming the element (its `name || id`) is recorded,
the element is omitted, the remaining elements are processed in input
order, and the run exits 0; the document is the header followed by exactly
the fragments of the surviving elements, in input order.  In particular the
two-element layout with one failing remote element produces exactly one
nested sub-document, a warning naming the failed element, and exit code 0. -/
theorem c1_per_element_error_containment (w : World) (root : String) (layout : Layout) :
    ((runMerge w root layout).exitCode = 0 ∧
     (runMerge w root layout).warnings = warnList w root (layout.elements.getD []) ∧
     (runMerge w root layout).doc =
       docHeader (intRound (jsOrQ (layout.canvas.getD ⟨none, none, none, none⟩).width 800))
         (intRound (jsOrQ (layout.canvas.getD ⟨none, none, none, none⟩).height 200))
         (computeBgFill (layout.canvas.getD ⟨none, none, none, none⟩)) ++
       String.intercalate "\n" (pieceList w root (layout.elements.getD [])) ++ "</svg>\n") ∧
    ((pieceList failWorld "/repo" (exTwoLayout.elements.getD [])).length = 1 ∧
     (runMerge failWorld "/repo" exTwoLayout).warnings =
       [(some "remote-el", "No SVG source available for element")] ∧
     (runMerge failWorld "/repo" exTwoLayout).exitCode = 0) := by
  refine ⟨⟨?_, ?_, ?_⟩, ?_, ?_, ?_⟩
  · rw [runMerge_spec]
  · rw [runMerge_spec]
  · rw [runMerge_spec]
  · decide
  · rw [runMerge_spec]
    decide
  · rw [runMerge_spec]

/-- C3 counterexample: the claim says a declared viewBox is preserved
verbatim, but the code trims it (`String(attrs.viewBox).trim()`): an
element declaring `viewBox="0 0 5 5 "` (trailing space) yields the trimmed
effective viewBox `0 0 5 5`, not the verbatim attribute value. -/
theorem c3_counterexample :
    processElement failWorld "/repo" exTrailingVbEl =
      .ok "  <svg x=\"0\" y=\"0\" width=\"5\" height=\"5\" viewBox=\"0 0 5 5\">\n\n  </svg>\n" ∧
    getViewBoxString [("viewBox", "0 0 5 5 ")] (.fin 5) (.fin 5) = "0 0 5 5" ∧
    ("0 0 5 5" : String) ≠ "0 0 5 5 " := by
  refine ⟨by decide, by decide, by decide⟩

/-- JS `a || b` is truthy whenever `b` is. -/
theorem orNumOpt_truthy (o : Option JNum) (b : JNum) (hb : b.truthy = true) :
    (orNumOpt o b).truthy = true := by
  cases o with
  | none => simp only [orNumOpt]; exact hb
  | some n =>
    simp only [orNumOpt]
    by_cases hn : n.truthy = true
    · rw [if_pos hn]; exact hn
    · rw [if_neg hn]; exact hb

/-- Every `targetW || fallback.width || 100` chain value is truthy: the
chain ends in the truthy constant 100, so `getViewBoxString` never sees a
falsy fallback from the pipeline. -/
theorem finalDim_truthy (t : Option ℚ) (i : Option JNum) : (finalDim t i).truthy = true := by
  unfold finalDim
  cases t with
  | none => exact orNumOpt_truthy _ _ (orNumOpt_truthy _ _ (by decide))
  | some q => exact orNumOpt_truthy _ _ (orNumOpt_truthy _ _ (by decide))

/-- C3 (amended): the effective viewBox is chosen by the chain — the
declared viewBox preserved up to whitespace trimming (origin and values
kept, never renormalised) when present and non-empty; otherwise `0 0 W H`
from the root tag's parsed width/height attributes when both are truthy;
otherwise `0 0 W H` where W and H are the element's effective dimensions
`target || regex-extracted intrinsic || 100` — the same `finalW`/`finalH`
used for the fragment size, not the bare target dimensions.  Those
effective dimensions are never falsy, so the `0 0 100 100` branch inside
`getViewBoxString` is reached from the pipeline only as `0 0 100 100` via
the 100×100 default.  In particular width=128/height=32 with no declared
viewBox and no target dimensions gives effective viewBox `0 0 128 32` and
size 128×32; and a bare root tag nesting `<svg width="10" height="20">`
with no target dimensions gives `0 0 10 20` (not `0 0 100 100`). -/
theorem c3_viewbox_chain (attrs : Attrs) (t1 t2 : Option ℚ) (i1 i2 : Option JNum) :
    (∀ vb, attrsGet attrs "viewBox" = some vb → vb ≠ "" →
      getViewBoxString attrs (finalDim t1 i1) (finalDim t2 i2) = jsTrim vb) ∧
    ((attrsGet attrs "viewBox" = none ∨ attrsGet attrs "viewBox" = some "") →
      jsQTruthy (parseNumeric (attrsGet attrs "width")) = true →
      jsQTruthy (parseNumeric (attrsGet attrs "height")) = true →
      getViewBoxString attrs (finalDim t1 i1) (finalDim t2 i2) =
        "0 0 " ++ ratDecimalStr ((parseNumeric (attrsGet attrs "width")).getD 0) ++ " " ++
        ratDecimalStr ((parseNumeric (attrsGet attrs "height")).getD 0)) ∧
    ((attrsGet attrs "viewBox" = none ∨ attrsGet attrs "viewBox" = some "") →
      (jsQTruthy (parseNumeric (attrsGet attrs "width")) &&
        jsQTruthy (parseNumeric (attrsGet attrs "height"))) = false →
      getViewBoxString attrs (finalDim t1 i1) (finalDim t2 i2) =
        "0 0 " ++ jnumToString (finalDim t1 i1) ++ " " ++ jnumToString (finalDim t2 i2)) ∧
    processElement failWorld "/repo" exWh128El =
      .ok "  <svg x=\"0\" y=\"0\" width=\"128\" height=\"32\" viewBox=\"0 0 128 32\">\nx\n  </svg>\n" ∧
    processElement failWorld "/repo" exNestedDimsEl =
      .ok "  <svg x=\"0\" y=\"0\" width=\"10\" height=\"20\" viewBox=\"0 0 10 20\">\n<svg width=\"10\" height=\"20\"></svg>\n  </svg>\n" := by
  refine ⟨?_, ?_, ?_, by decide, by decide⟩
  · intro vb hvb hne
    unfold getViewBoxString
    rw [hvb]
    simp [hne]
  · intro hvbF hw hh
    unfold getViewBoxString getViewBoxRest
    rcases hvbF with h | h <;> rw [h] <;> simp [hw, hh]
  · intro hvbF hwh
    unfold getViewBoxString getViewBoxRest
    rcases hvbF with h | h <;> rw [h] <;>
      simp [hwh, finalDim_truthy t1 i1, finalDim_truthy t2 i2]

/-- C3 witness: the first tier of the chain at a concrete attribute map
with a whitespace-padded declared viewBox. -/
theorem c3_viewbox_chain_witness :
    getViewBoxString [("viewBox", " 7 8 9 10 ")]
      (finalDim none none) (finalDim none none) = "7 8 9 10" := by
  have h := (c3_viewbox_chain [("viewBox", " 7 8 9 10 ")] none none none none).1
    " 7 8 9 10 " (by decide) (by decide)
  rw [h]
  decide

/-- C4 counterexample: the claim says the fallback effective size comes
from the fragment's intrinsic width/height attributes, but when the
fragment also declares a parseable viewBox the code takes the viewBox's
width/height instead: a fragment with `viewBox="0 0 50 60"` and
`width="128" height="32"` and no target dimensions is emitted at 50×60,
not 128×32. -/
theorem c4_counterexample :
    processElement failWorld "/repo" exVbPriorityEl =
      .ok "  <svg x=\"0\" y=\"0\" width=\"50\" height=\"60\" viewBox=\"0 0 50 60\">\n\n  </svg>\n" ∧
    ("  <svg x=\"0\" y=\"0\" width=\"50\" height=\"60\" viewBox=\"0 0 50 60\">\n\n  </svg>\n" : String) ≠
      "  <svg x=\"0\" y=\"0\" width=\"128\" height=\"32\" viewBox=\"0 0 50 60\">\n\n  </svg>\n" := by
  refine ⟨by decide, by decide⟩

/-- C4 (amended): the effective width/height follow the chain — the
layout's target dimension when present and non-zero, else the fragment's
intrinsic dimension when truthy, else the fixed fallback 100 — where the
intrinsic dimensions are extracted preferring a parseable declared viewBox
(its third/fourth entries) over the width/height attributes; the placement
position is the layout's (x, y), defaulting to (0, 0) when absent. -/
theorem c4_effective_dims (t : Option ℚ) (i : Option JNum) (svgText : String) (el : Element) :
    (∀ q, t = some q → q ≠ 0 → finalDim t i = .fin q) ∧
    (jsQTruthy t = false → ∀ n, i = some n → n.truthy = true → finalDim t i = n) ∧
    (jsQTruthy t = false → optJTruthy i = false → finalDim t i = .fin 100) ∧
    (∀ a, vbAttrs svgText.data = some a →
      extractInnerSvgAttributes svgText = a ∧
      ∃ parts, a = ⟨some (parts.getD 2 .nan), some (parts.getD 3 .nan), some parts⟩) ∧
    (vbAttrs svgText.data = none →
      extractInnerSvgAttributes svgText = innerWhFallback svgText.data) ∧
    (el.position = none → posX el = 0 ∧ posY el = 0) ∧
    (∀ p, el.position = some p → posX el = p.x.getD 0 ∧ posY el = p.y.getD 0) := by
  refine ⟨?_, ?_, ?_, ?_, ?_, ?_, ?_⟩
  · intro q hq hne
    subst hq
    simp [finalDim, orNumOpt, JNum.truthy, hne]
  · intro ht n hn htr
    subst hn
    cases t with
    | none => simp [finalDim, orNumOpt, htr]
    | some q =>
      simp only [jsQTruthy, bne_eq_false_iff_eq] at ht
      subst ht
      have e : finalDim (some 0) (some n) = if n.truthy = true then n else .fin 100 := rfl
      rw [e, htr]
      simp
  · intro ht hi
    cases t with
    | none =>
      cases i with
      | none => rfl
      | some n =>
        simp only [optJTruthy] at hi
        have e : finalDim none (some n) = if n.truthy = true then n else .fin 100 := rfl
        rw [e, hi]
        simp
    | some q =>
      simp only [jsQTruthy, bne_eq_false_iff_eq] at ht
      subst ht
      cases i with
      | none => rfl
      | some n =>
        simp only [optJTruthy] at hi
        have e : finalDim (some 0) (some n) = if n.truthy = true then n else .fin 100 := rfl
        rw [e, hi]
        simp
  · intro a ha
    constructor
    · unfold extractInnerSvgAttributes
      rw [ha]
    · unfold vbAttrs at ha
      cases hf : findFirstAux vbRE none svgText.data with
      | none => rw [hf] at ha; exact absurd ha (by simp)
      | some m =>
        rw [hf] at ha
        cases hc : getCap m.caps 2 with
        | none =>
          simp only [hc] at ha
          exact Option.noConfusion ha
        | some vbRaw =>
          simp only [hc] at ha
          split at ha
          · exact ⟨_, (Option.some_injective _ ha).symm⟩
          · exact absurd ha (by simp)
  · intro ha
    unfold extractInnerSvgAttributes
    rw [ha]
  · intro hp
    unfold posX posY
    rw [hp]
    exact ⟨rfl, rfl⟩
  · intro p hp
    unfold posX posY
    rw [hp]
    exact ⟨rfl, rfl⟩

/-- C4 witness: the chain at a concrete instance — target dimension absent,
intrinsic taken from a declared viewBox in preference to the width/height
attributes. -/
theorem c4_effective_dims_witness :
    finalDim none (some (.fin 50)) = .fin 50 ∧
    extractInnerSvgAttributes "<svg viewBox=\"0 0 50 60\" width=\"128\" height=\"32\"></svg>" =
      ⟨some (.fin 50), some (.fin 60), some [.fin 0, .fin 0, .fin 50, .fin 60]⟩ := by
  constructor
  · exact (c4_effective_dims none (some (.fin 50))
      "<svg viewBox=\"0 0 50 60\" width=\"128\" height=\"32\"></svg>" emptyElement).2.1
      (by decide) (.fin 50) rfl (by decide)
  · have h := (c4_effective_dims none (some (.fin 50))
      "<svg viewBox=\"0 0 50 60\" width=\"128\" height=\"32\"></svg>" emptyElement).2.2.2.1
      ⟨some (.fin 50), some (.fin 60), some [.fin 0, .fin 0, .fin 50, .fin 60]⟩ (by decide)
    exact h.1

/-- C5 counterexample: the claim's own example is off — for canvas
`{width:800, height:400, backgroundColor:"#ffffff", transparency:0.5}` the
code's template emits `rgba(255, 255, 255, 0.5)` (with spaces), not the
claimed `rgba(255,255,255,0.5)`. -/
theorem c5_counterexample :
    computeBgFill ⟨some 800, some 400, some "#ffffff", some (mkRat 1 2)⟩ =
      "rgba(255, 255, 255, 0.5)" ∧
    ("rgba(255, 255, 255, 0.5)" : String) ≠ "rgba(255,255,255,0.5)" := by
  refine ⟨by decide, by decide⟩

/-- C5 (amended): canvas dimensions are the configured values rounded
(`Math.round`), defaulting to 800×200 when absent (or zero); the fill is
the configured color when no transparency is given; with a numeric
transparency the hex color is converted to an RGB triplet and emitted as
`rgba(r, g, b, a)` (note the spaces), falling back to white only when the
color fails the hex shape check (`hexToRgb` returns `null`); a 6-character
non-hex color instead yields NaN components.  The claim's example resolves
to `rgba(255, 255, 255, 0.5)`. -/
theorem c5_canvas (canvas : Canvas) :
    (canvas.width = none → intRound (jsOrQ canvas.width 800) = 800) ∧
    (canvas.height = none → intRound (jsOrQ canvas.height 200) = 200) ∧
    (∀ q, canvas.width = some q → q ≠ 0 → intRound (jsOrQ canvas.width 800) = ⌊q + 1/2⌋) ∧
    (∀ q, canvas.height = some q → q ≠ 0 → intRound (jsOrQ canvas.height 200) = ⌊q + 1/2⌋) ∧
    (canvas.transparency = none →
      computeBgFill canvas = jsOrStrD canvas.backgroundColor "#ffffff") ∧
    (∀ a r g b, canvas.transparency = some a →
      hexToRgb (jsOrStrD canvas.backgroundColor "#ffffff") = some (r, g, b) →
      computeBgFill canvas =
        "rgba(" ++ jnumToString r ++ ", " ++ jnumToString g ++ ", " ++ jnumToString b ++
        ", " ++ ratDecimalStr a ++ ")") ∧
    (∀ a, canvas.transparency = some a →
      hexToRgb (jsOrStrD canvas.backgroundColor "#ffffff") = none →
      computeBgFill canvas = "rgba(255,255,255," ++ ratDecimalStr a ++ ")") ∧
    computeBgFill ⟨some 800, some 400, some "#ffffff", some (mkRat 1 2)⟩ =
      "rgba(255, 255, 255, 0.5)" ∧
    computeBgFill ⟨none, none, some "zzzzzz", some (mkRat 1 2)⟩ =
      "rgba(NaN, NaN, NaN, 0.5)" ∧
    intRound (jsOrQ (some (800 : ℚ)) 800) = 800 ∧
    intRound (jsOrQ (some (400 : ℚ)) 200) = 400 := by
  refine ⟨?_, ?_, ?_, ?_, ?_, ?_, ?_, by decide, by decide, ?_, ?_⟩
  · intro h
    rw [h, show jsOrQ none 800 = 800 from rfl, intRound_eq, Int.floor_eq_iff]
    constructor <;> norm_num
  · intro h
    rw [h, show jsOrQ none 200 = 200 from rfl, intRound_eq, Int.floor_eq_iff]
    constructor <;> norm_num
  · intro q hq hne
    rw [hq, intRound_eq]
    simp only [jsOrQ, ne_eq, hne, not_false_eq_true, if_true]
  · intro q hq hne
    rw [hq, intRound_eq]
    simp only [jsOrQ, ne_eq, hne, not_false_eq_true, if_true]
  · intro h
    unfold computeBgFill
    rw [h]
  · intro a r g b ha hrgb
    unfold computeBgFill
    rw [ha]
    simp only [hrgb]
  · intro a ha hrgb
    unfold computeBgFill
    rw [ha]
    simp only [hrgb]
  · rw [show jsOrQ (some (800 : ℚ)) 800 = 800 from by norm_num [jsOrQ], intRound_eq,
      Int.floor_eq_iff]
    constructor <;> norm_num
  · rw [show jsOrQ (some (400 : ℚ)) 200 = 400 from by norm_num [jsOrQ], intRound_eq,
      Int.floor_eq_iff]
    constructor <;> norm_num

/-- C5 witness: the rgba branch applied at a concrete canvas with a parsed
hex color. -/
theorem c5_canvas_witness :
    computeBgFill ⟨some 800, some 400, some "#336699", some (mkRat 1 4)⟩ =
      "rgba(51, 102, 153, 0.25)" := by
  have h := (c5_canvas ⟨some 800, some 400, some "#336699", some (mkRat 1 4)⟩).2.2.2.2.2.1
    (mkRat 1 4) (.fin 51) (.fin 102) (.fin 153) rfl (by decide)
  rw [h]
  decide

/-! ## Engine lemmas: patterns that require a `0s` token cannot match
`0s`-free text, so the sanitizer's global replaces leave it unchanged. -/

theorem orElse_some {a : Option MSt} {b : Option MSt} {out : MSt}
    (h : (a <|> b) = some out) : a = some out ∨ b = some out := by
  cases a with
  | some x => left; simpa using h
  | none => right; simpa using h

theorem has0s_cons (x : Char) (l : List Char) (h : has0s l = true) :
    has0s (x :: l) = true := by
  simp only [has0s, h, Bool.or_true]

theorem has0s_append (t l : List Char) (h : has0s l = true) : has0s (t ++ l) = true := by
  induction t with
  | nil => simpa using h
  | cons x xs ih => exact has0s_cons x (xs ++ l) ih

theorem has0s_suffix {l s : List Char} (hs : l <:+ s) (h : has0s l = true) :
    has0s s = true := by
  obtain ⟨t, rfl⟩ := hs
  exact has0s_append t l h

theorem starLoop_suffix (p : Char → Bool) (lz : Bool) (k : MSt → Option MSt) :
    ∀ (s : List Char) (prev : Option Char) (caps : List (Nat × List Char)) (out : MSt),
      starLoop p lz k prev s caps = some out →
      ∃ st', st'.rest <:+ s ∧ k st' = some out := by
  intro s
  induction s with
  | nil =>
    intro prev caps out h
    exact ⟨⟨prev, [], caps⟩, List.suffix_refl _, h⟩
  | cons c cs ih =>
    intro prev caps out h
    simp only [starLoop] at h
    by_cases hp : p c = true
    · rw [if_pos hp] at h
      cases lz with
      | true =>
        rw [if_pos rfl] at h
        rcases orElse_some h with h1 | h1
        · exact ⟨⟨prev, c :: cs, caps⟩, List.suffix_refl _, h1⟩
        · obtain ⟨st', hsuff, hk⟩ := ih (some c) caps out h1
          exact ⟨st', hsuff.trans (List.suffix_cons c cs), hk⟩
      | false =>
        rw [if_neg (by simp)] at h
        rcases orElse_some h with h1 | h1
        · obtain ⟨st', hsuff, hk⟩ := ih (some c) caps out h1
          exact ⟨st', hsuff.trans (List.suffix_cons c cs), hk⟩
        · exact ⟨⟨prev, c :: cs, caps⟩, List.suffix_refl _, h1⟩
    · rw [if_neg hp] at h
      exact ⟨⟨prev, c :: cs, caps⟩, List.suffix_refl _, h⟩

theorem mmatch_suffix :
    ∀ (r : RE) (st : MSt) (k : MSt → Option MSt) (out : MSt),
      mmatch r st k = some out → ∃ st', st'.rest <:+ st.rest ∧ k st' = some out := by
  intro r
  induction r with
  | eps =>
    intro st k out h
    exact ⟨st, List.suffix_refl _, h⟩
  | cls p =>
    intro st k out h
    simp only [mmatch] at h
    cases hs : st.rest with
    | nil => rw [hs] at h; exact absurd h (by simp)
    | cons c cs =>
      rw [hs] at h
      dsimp only at h
      by_cases hp : p c = true
      · rw [if_pos hp] at h
        exact ⟨⟨some c, cs, st.caps⟩, hs ▸ List.suffix_cons c cs, h⟩
      · rw [if_neg hp] at h
        exact absurd h (by simp)
  | seq a b iha ihb =>
    intro st k out h
    simp only [mmatch] at h
    obtain ⟨st1, h1, hk1⟩ := iha st _ out h
    obtain ⟨st2, h2, hk2⟩ := ihb st1 k out hk1
    exact ⟨st2, h2.trans h1, hk2⟩
  | alt a b iha ihb =>
    intro st k out h
    simp only [mmatch] at h
    rcases orElse_some h with h1 | h1
    · exact iha st k out h1
    · exact ihb st k out h1
  | star p lz =>
    intro st k out h
    simp only [mmatch] at h
    exact starLoop_suffix p lz k st.rest st.prev st.caps out h
  | opt r ih =>
    intro st k out h
    simp only [mmatch] at h
    rcases orElse_some h with h1 | h1
    · exact ih st k out h1
    · exact ⟨st, List.suffix_refl _, h1⟩
  | grp n r ih =>
    intro st k out h
    simp only [mmatch] at h
    obtain ⟨st1, h1, hk1⟩ := ih st _ out h
    exact ⟨⟨st1.prev, st1.rest,
      (n, List.take (st.rest.length - st1.rest.length) st.rest) :: st1.caps⟩, h1, hk1⟩
  | wb =>
    intro st k out h
    simp only [mmatch] at h
    split at h
    · exact ⟨st, List.suffix_refl _, h⟩
    · exact absurd h (by simp)
  | eos =>
    intro st k out h
    simp only [mmatch] at h
    split at h
    · exact ⟨st, List.suffix_refl _, h⟩
    · exact absurd h (by simp)
  | zs =>
    intro st k out h
    simp only [mmatch] at h
    split at h
    · rename_i c cs heq
      split at h
      · refine ⟨⟨some c, cs, st.caps⟩, ?_, h⟩
        rw [heq]
        exact (List.suffix_cons c cs).trans (List.suffix_cons '0' (c :: cs))
      · exact absurd h (by simp)
    · exact absurd h (by simp)

theorem mmatch_req0s :
    ∀ (r : RE) (st : MSt) (k : MSt → Option MSt) (out : MSt),
      req0s r = true → mmatch r st k = some out → has0s st.rest = true := by
  intro r
  induction r with
  | eps => intro st k out hreq h; simp [req0s] at hreq
  | cls p => intro st k out hreq h; simp [req0s] at hreq
  | seq a b iha ihb =>
    intro st k out hreq h
    simp only [mmatch] at h
    simp only [req0s, Bool.or_eq_true] at hreq
    rcases hreq with hr | hr
    · exact iha st _ out hr h
    · obtain ⟨st1, h1, hk1⟩ := mmatch_suffix a st _ out h
      exact has0s_suffix h1 (ihb st1 k out hr hk1)
  | alt a b iha ihb =>
    intro st k out hreq h
    simp only [mmatch] at h
    simp only [req0s, Bool.and_eq_true] at hreq
    rcases orElse_some h with h1 | h1
    · exact iha st k out hreq.1 h1
    · exact ihb st k out hreq.2 h1
  | star p lz => intro st k out hreq h; simp [req0s] at hreq
  | opt r ih => intro st k out hreq h; simp [req0s] at hreq
  | grp n r ih =>
    intro st k out hreq h
    simp only [mmatch] at h
    exact ih st _ out hreq h
  | wb => intro st k out hreq h; simp [req0s] at hreq
  | eos => intro st k out hreq h; simp [req0s] at hreq
  | zs =>
    intro st k out hreq h
    simp only [mmatch] at h
    split at h
    · rename_i c cs heq
      split at h
      · rename_i hc
        rw [heq]
        simp only [has0s]
        simp [hc]
      · exact absurd h (by simp)
    · exact absurd h (by simp)

theorem findFirstAux_req0s (r : RE) (hreq : req0s r = true) :
    ∀ (s : List Char) (prev : Option Char) (res : MRes),
      findFirstAux r prev s = some res → has0s s = true := by
  intro s
  induction s with
  | nil =>
    intro prev res h
    simp only [findFirstAux] at h
    cases hm : mmatch r ⟨prev, [], []⟩ some with
    | some st =>
      exact absurd (mmatch_req0s r ⟨prev, [], []⟩ some st hreq hm) (by simp [has0s])
    | none => rw [hm] at h; exact absurd h (by simp)
  | cons c cs ih =>
    intro prev res h
    simp only [findFirstAux] at h
    cases hm : mmatch r ⟨prev, c :: cs, []⟩ some with
    | some st => exact mmatch_req0s r ⟨prev, c :: cs, []⟩ some st hreq hm
    | none =>
      rw [hm] at h
      cases hf : findFirstAux r (some c) cs with
      | none => rw [hf] at h; exact absurd h (by simp)
      | some res2 => exact has0s_cons c cs (ih (some c) res2 hf)

theorem replaceAll_no0s (r : RE) (hreq : req0s r = true) (fuel : Nat)
    (prev : Option Char) (s : List Char) (h : has0s s = false) :
    replaceAllAux r fuel prev s = s := by
  cases fuel with
  | zero => rfl
  | succ f =>
    simp only [replaceAllAux]
    cases hf : findFirstAux r prev s with
    | none => rfl
    | some res => exact absurd (findFirstAux_req0s r hreq s prev res hf) (by simp [h])

theorem sanitize_no0s (m : String) (h : has0s m.data = false) :
    sanitizeAnimationOverrides m = m := by
  unfold sanitizeAnimationOverrides
  by_cases he : m = ""
  · simp [he]
  · rw [if_neg he]
    simp only [replaceAllEmpty]
    rw [replaceAll_no0s universalAnimBlockRE (by rfl) _ _ _ h]
    rw [replaceAll_no0s durationZeroRE (by rfl) _ _ _ h]
    rw [replaceAll_no0s delayZeroRE (by rfl) _ _ _ h]
    rw [replaceAll_no0s shorthandZeroRE (by rfl) _ _ _ h]

/-- C6 counterexample: the sanitizer is claimed not to touch non-zero
durations, but the shorthand regex token `\b0s\b` also matches inside the
non-zero duration `2.0s` (word boundary after the decimal point), so the
whole declaration `animation: spin 2.0s linear;` is deleted. -/
theorem c6_counterexample :
    sanitizeAnimationOverrides c6NonZeroInput = c6NonZeroOutput ∧
    c6NonZeroOutput ≠ c6NonZeroInput ∧
    strIncludes c6NonZeroInput "2.0s" = true := by
  refine ⟨by decide, by decide, by decide⟩

/-- C6 (amended): the sanitizer removes only markup containing a `0s` token
(case-insensitive, at the places its regexes require): markup with no `0s`
substring is preserved verbatim, and in the claim's example the universal
zero-duration block is removed while the adjacent `.spin` rule with a
non-`0s` duration is preserved verbatim; but a fractional duration such as
`2.0s` also contains the token and is removed. -/
theorem c6_sanitizer (m : String) :
    (has0s m.data = false → sanitizeAnimationOverrides m = m) ∧
    sanitizeAnimationOverrides c6ExampleInput = c6ExampleOutput ∧
    strIncludes c6ExampleOutput ".spin \x7b animation: spin 2s linear infinite; \x7d" = true := by
  refine ⟨sanitize_no0s m, by decide, by decide⟩

/-- C6 witness: the preservation half applied to concrete `0s`-free markup. -/
theorem c6_sanitizer_witness :
    sanitizeAnimationOverrides "<rect width=\"10\"/>" = "<rect width=\"10\"/>" :=
  (c6_sanitizer "<rect width=\"10\"/>").1 (by decide)

/-- C7 counterexample: the sanitizer is not idempotent.  On `c7SeamInput`
the first pass deletes `animation-duration: 0s x;`, splicing the remaining
text into the fresh declaration `animation-duration: 0s y;` (global regex
replacement scans the original string, never the spliced seam), which only
a second pass removes. -/
theorem c7_counterexample :
    sanitizeAnimationOverrides (sanitizeAnimationOverrides c7SeamInput) ≠
      sanitizeAnimationOverrides c7SeamInput ∧
    sanitizeAnimationOverrides c7SeamInput = "animation-duration: 0s y;" ∧
    sanitizeAnimationOverrides "animation-duration: 0s y;" = "" := by
  refine ⟨by decide, by decide, by decide⟩

/-- C7 (amended): the sanitizer is a total pure text transform (a function
of the markup alone — totality is by construction), and it is idempotent on
markup containing no `0s` token, on which it acts as the identity; it is
not idempotent in general. -/
theorem c7_idempotent_on_clean (m : String) (h : has0s m.data = false) :
    sanitizeAnimationOverrides (sanitizeAnimationOverrides m) = sanitizeAnimationOverrides m := by
  rw [sanitize_no0s m h, sanitize_no0s m h]

/-- C7 witness: idempotence at a concrete `0s`-free markup string. -/
theorem c7_idempotent_on_clean_witness :
    sanitizeAnimationOverrides (sanitizeAnimationOverrides "<svg>ok</svg>") =
      sanitizeAnimationOverrides "<svg>ok</svg>" :=
  c7_idempotent_on_clean "<svg>ok</svg>" (by decide)

/-! ## Base64 and UTF-8 round-trip lemmas (claim C8) -/

theorem b64Val_inv : ∀ n : Fin 64, b64ValOfChar (b64CharOfVal n.val) = n.val := by decide

theorem isB64_tbl : ∀ n : Fin 64, isB64Char (b64CharOfVal n.val) = true := by decide

theorem b64Val_inv' {n : Nat} (h : n < 64) : b64ValOfChar (b64CharOfVal n) = n :=
  b64Val_inv ⟨n, h⟩

theorem isB64_tbl' {n : Nat} (h : n < 64) : isB64Char (b64CharOfVal n) = true :=
  isB64_tbl ⟨n, h⟩

theorem isB64_eq_false' : isB64Char '=' = false := by decide

theorem b64_quads_encode (bs : List Nat) (hb : ∀ b ∈ bs, b < 256) :
    b64Quads ((b64EncodeBytes bs).filter isB64Char) = bs := by
  induction bs using b64EncodeBytes.induct with
  | case4 => rfl
  | case3 b1 =>
    have h1 : b1 < 256 := hb b1 (by simp)
    simp only [b64EncodeBytes, List.filter]
    rw [isB64_tbl' (by omega), isB64_tbl' (by omega)]
    simp only [List.filter, isB64_eq_false']
    simp only [b64Quads]
    rw [b64Val_inv' (by omega), b64Val_inv' (by omega)]
    have : b1 / 4 * 4 + b1 % 4 * 16 / 16 = b1 := by omega
    rw [this]
  | case2 b1 b2 =>
    have h1 : b1 < 256 := hb b1 (by simp)
    have h2 : b2 < 256 := hb b2 (by simp)
    simp only [b64EncodeBytes, List.filter]
    rw [isB64_tbl' (by omega), isB64_tbl' (by omega), isB64_tbl' (by omega)]
    simp only [List.filter, isB64_eq_false']
    simp only [b64Quads]
    rw [b64Val_inv' (by omega), b64Val_inv' (by omega), b64Val_inv' (by omega)]
    have e1 : b1 / 4 * 4 + (b1 % 4 * 16 + b2 / 16) / 16 = b1 := by omega
    have e2 : (b1 % 4 * 16 + b2 / 16) % 16 * 16 + b2 % 16 * 4 / 4 = b2 := by omega
    rw [e1, e2]
  | case1 b1 b2 b3 rest ih =>
    have h1 : b1 < 256 := hb b1 (by simp)
    have h2 : b2 < 256 := hb b2 (by simp)
    have h3 : b3 < 256 := hb b3 (by simp)
    have hrest : ∀ b ∈ rest, b < 256 := fun b hbm => hb b (by simp [hbm])
    simp only [b64EncodeBytes, List.filter]
    rw [isB64_tbl' (by omega), isB64_tbl' (by omega), isB64_tbl' (by omega),
        isB64_tbl' (by omega)]
    simp only [b64Quads]
    rw [b64Val_inv' (by omega), b64Val_inv' (by omega), b64Val_inv' (by omega),
        b64Val_inv' (by omega)]
    have e1 : b1 / 4 * 4 + (b1 % 4 * 16 + b2 / 16) / 16 = b1 := by omega
    have e2 : (b1 % 4 * 16 + b2 / 16) % 16 * 16 + (b2 % 16 * 4 + b3 / 64) / 4 = b2 := by omega
    have e3 : (b2 % 16 * 4 + b3 / 64) % 4 * 64 + b3 % 64 = b3 := by omega
    rw [e1, e2, e3, ih hrest]
theorem char_toNat_valid (c : Char) :
    c.toNat < 0xd800 ∨ (0xdfff < c.toNat ∧ c.toNat < 0x110000) := by
  rcases c.valid with h | h
  · left; exact_mod_cast h
  · right; exact ⟨by exact_mod_cast h.1, by exact_mod_cast h.2⟩

theorem utf8EncodeChar_lt (c : Char) : ∀ b ∈ utf8EncodeChar c, b < 256 := by
  have hv := char_toNat_valid c
  unfold utf8EncodeChar
  by_cases h1 : c.toNat < 0x80
  · simp only [h1, if_true, List.mem_singleton]
    omega
  · by_cases h2 : c.toNat < 0x800
    · simp only [h1, h2, if_true, if_false, List.mem_cons, List.mem_singleton,
        List.not_mem_nil, or_false]
      rintro b (rfl | rfl) <;> omega
    · by_cases h3 : c.toNat < 0x10000
      · simp only [h1, h2, h3, if_true, if_false, List.mem_cons, List.mem_singleton,
          List.not_mem_nil, or_false]
        rintro b (rfl | rfl | rfl) <;> omega
      · simp only [h1, h2, h3, if_false, List.mem_cons, List.mem_singleton,
          List.not_mem_nil, or_false]
        rintro b (rfl | rfl | rfl | rfl) <;> omega

theorem utf8_step (c : Char) (rest : List Nat) (f : Nat) :
    utf8DecodeLooseAux (f + 1) (utf8EncodeChar c ++ rest) = c :: utf8DecodeLooseAux f rest := by
  have hv := char_toNat_valid c
  unfold utf8EncodeChar
  by_cases h1 : c.toNat < 0x80
  · simp only [h1, if_true, List.cons_append, List.nil_append]
    simp only [utf8DecodeLooseAux, h1, if_true]
    rw [Char.ofNat_toNat]
  · by_cases h2 : c.toNat < 0x800
    · simp only [h1, h2, if_true, if_false, List.cons_append, List.nil_append]
      simp only [utf8DecodeLooseAux]
      rw [if_neg (by omega), if_neg (by omega), if_pos (by omega)]
      simp only [List.getElem?_cons_zero, isCont]
      rw [if_pos (by simp [isCont]; omega)]
      have e : (0xc0 + c.toNat / 64 - 0xc0) * 64 + (0x80 + c.toNat % 64 - 0x80) = c.toNat := by
        omega
      rw [e, Char.ofNat_toNat]
      rfl
    · by_cases h3 : c.toNat < 0x10000
      · simp only [h1, h2, h3, if_true, if_false, List.cons_append, List.nil_append]
        simp only [utf8DecodeLooseAux]
        rw [if_neg (by omega), if_neg (by omega), if_neg (by omega), if_pos (by omega)]
        simp only [List.getElem?_cons_zero, List.getElem?_cons_succ, isCont]
        rw [if_pos (by simp [isCont]; omega)]
        have e : (0xe0 + c.toNat / 4096 - 0xe0) * 4096 + (0x80 + c.toNat / 64 % 64 - 0x80) * 64 +
            (0x80 + c.toNat % 64 - 0x80) = c.toNat := by
          have hdd : c.toNat / 4096 = c.toNat / 64 / 64 := by
            rw [Nat.div_div_eq_div_mul]
          omega
        rw [e]
        rw [if_neg (by simp; omega)]
        rw [Char.ofNat_toNat]
        rfl
      · simp only [h1, h2, h3, if_false, List.cons_append, List.nil_append]
        simp only [utf8DecodeLooseAux]
        rw [if_neg (by omega), if_neg (by omega), if_neg (by omega), if_neg (by omega),
            if_pos (by omega)]
        simp only [List.getElem?_cons_zero, List.getElem?_cons_succ, isCont]
        rw [if_pos (by simp [isCont]; omega)]
        have e : (0xf0 + c.toNat / 262144 - 0xf0) * 262144 +
            (0x80 + c.toNat / 4096 % 64 - 0x80) * 4096 +
            (0x80 + c.toNat / 64 % 64 - 0x80) * 64 + (0x80 + c.toNat % 64 - 0x80) = c.toNat := by
          have hdd : c.toNat / 4096 = c.toNat / 64 / 64 := by
            rw [Nat.div_div_eq_div_mul]
          have hdd2 : c.toNat / 262144 = c.toNat / 64 / 64 / 64 := by
            rw [Nat.div_div_eq_div_mul, Nat.div_div_eq_div_mul]
          omega
        rw [e]
        rw [if_neg (by simp; omega)]
        rw [Char.ofNat_toNat]
        rfl

theorem utf8Encode_cons (c : Char) (ls : List Char) :
    utf8Encode (c :: ls) = utf8EncodeChar c ++ utf8Encode ls := by
  simp [utf8Encode]

theorem utf8EncodeChar_len_pos (c : Char) : 1 ≤ (utf8EncodeChar c).length := by
  by_cases h1 : c.toNat < 0x80 <;> by_cases h2 : c.toNat < 0x800 <;>
    by_cases h3 : c.toNat < 0x10000 <;> simp [utf8EncodeChar, h1, h2, h3]

theorem utf8_decode_encode_aux (l : List Char) :
    ∀ f, l.length ≤ f → utf8DecodeLooseAux f (utf8Encode l) = l := by
  induction l with
  | nil =>
    intro f _
    cases f <;> rfl
  | cons c ls ih =>
    intro f hf
    cases f with
    | zero => simp at hf
    | succ g =>
      rw [utf8Encode_cons, utf8_step]
      rw [ih g (by simp at hf; omega)]

theorem len_le_utf8Encode (l : List Char) : l.length ≤ (utf8Encode l).length := by
  induction l with
  | nil => simp [utf8Encode]
  | cons c ls ih =>
    rw [utf8Encode_cons]
    simp only [List.length_append, List.length_cons]
    have := utf8EncodeChar_len_pos c
    omega

theorem utf8Encode_lt (l : List Char) : ∀ b ∈ utf8Encode l, b < 256 := by
  intro b hb
  simp only [utf8Encode, List.mem_flatMap] at hb
  obtain ⟨c, _, hbc⟩ := hb
  exact utf8EncodeChar_lt c b hbc

theorem utf8_decode_encode (l : List Char) : utf8DecodeLoose (utf8Encode l) = l :=
  utf8_decode_encode_aux l (utf8Encode l).length (len_le_utf8Encode l)

theorem b64_str_roundtrip (s : String) : b64DecodeStr (b64EncodeStr s) = s := by
  show (⟨utf8DecodeLoose (b64Quads (List.filter isB64Char
    (b64EncodeBytes (utf8Encode s.data))))⟩ : String) = s
  rw [show List.filter isB64Char (b64EncodeBytes (utf8Encode s.data)) =
      (b64EncodeBytes (utf8Encode s.data)).filter isB64Char from rfl]
  rw [b64_quads_encode _ (utf8Encode_lt s.data), utf8_decode_encode]


/-- C8 counterexample: resolving inline content is not invariant under
base64 encoding for every valid SVG.  For `c8BadSvg` the plain text's own
lenient base64 decoding contains `<svg`, so `tryBase64Decode` returns that
garbage instead of the original text, and the extracted inner markup
differs from the round-tripped one. -/
theorem c8_counterexample :
    strIncludes c8BadSvg "<svg" = true ∧
    tryBase64Decode (b64EncodeStr c8BadSvg) = c8BadSvg ∧
    tryBase64Decode c8BadSvg ≠ c8BadSvg ∧
    extractSvgParts (tryBase64Decode (b64EncodeStr c8BadSvg)) ≠
      extractSvgParts (tryBase64Decode c8BadSvg) := by
  refine ⟨by decide, by decide, by decide, by decide⟩

/-- C8 (amended): for every valid SVG text neither of whose own lenient
base64 decodings (standard and URL-safe alphabets) contains the `<svg`
marker, resolving its base64 encoding and resolving it as plain text both
yield the text itself, hence byte-identical inner markup. -/
theorem c8_roundtrip (svg : String)
    (hmark : strIncludes svg "<svg" = true)
    (h1 : strIncludes (b64DecodeStr svg) "<svg" = false)
    (h2 : strIncludes (b64DecodeStr
      ⟨svg.data.map (fun c => if c = '-' then '+' else if c = '_' then '/' else c)⟩)
      "<svg" = false) :
    tryBase64Decode (b64EncodeStr svg) = svg ∧
    tryBase64Decode svg = svg ∧
    extractSvgParts (tryBase64Decode (b64EncodeStr svg)) =
      extractSvgParts (tryBase64Decode svg) := by
  have hne : svg ≠ "" := by
    intro he
    rw [he] at hmark
    exact absurd hmark (by decide)
  have hdec : b64DecodeStr (b64EncodeStr svg) = svg := b64_str_roundtrip svg
  have henc_ne : b64EncodeStr svg ≠ "" := by
    intro he
    rw [he] at hdec
    have h0 : b64DecodeStr "" = "" := rfl
    rw [h0] at hdec
    exact hne hdec.symm
  have hfirst : tryBase64Decode (b64EncodeStr svg) = svg := by
    unfold tryBase64Decode
    rw [if_neg henc_ne, hdec]
    rw [if_pos hmark]
  have hplain : tryBase64Decode svg = svg := by
    unfold tryBase64Decode
    rw [if_neg hne, if_neg (by simp [h1]), if_neg (by simp [h2])]
  exact ⟨hfirst, hplain, by rw [hfirst, hplain]⟩

/-- C8 witness: the round-trip equality at a concrete SVG whose own base64
decodings are markerless. -/
theorem c8_roundtrip_witness :
    tryBase64Decode (b64EncodeStr "<svg>hello</svg>") = "<svg>hello</svg>" ∧
    tryBase64Decode "<svg>hello</svg>" = "<svg>hello</svg>" := by
  have h := c8_roundtrip "<svg>hello</svg>" (by decide) (by decide) (by decide)
  exact ⟨h.1, h.2.1⟩

/-! ## Pipeline equivalence lemmas (claim C10) -/

theorem c10_piece_eq (w : World) (root : String) (el : Element)
    (hio : inlineOnly el) (hs : sanitizeUnchanged el) :
    exceptPiece (processElement w root el) = exceptPiece (processElementOld el) := by
  obtain ⟨h1, h2, h3, h4⟩ := hio
  have hres : resolveSvgSource w root el = tryBase64Decode (inlineContent el) := by
    unfold resolveSvgSource resolveRemoteStep resolveLocalStep resolveCacheStep
    rw [h1, h2, h3, h4]
    rfl
  unfold sanitizeUnchanged at hs
  unfold processElement processElementOld
  rw [hres]
  unfold inlineContent at hs ⊢
  cases hc : el.content with
  | none =>
    simp only [hc] at hs ⊢
    by_cases hde : tryBase64Decode "" = ""
    · rw [if_pos hde, hde]
      rfl
    · rw [if_neg hde, hs]
  | some c =>
    simp only [hc] at hs ⊢
    by_cases hde : tryBase64Decode c = ""
    · rw [if_pos hde, hde]
      rfl
    · rw [if_neg hde, hs]

theorem mergeLoop_pieces_eq (w : World) (root : String) :
    ∀ els : List Element, (∀ el ∈ els, inlineOnly el ∧ sanitizeUnchanged el) →
      (mergeLoop w root els).1 = (mergeLoopOld els).1 := by
  intro els
  induction els with
  | nil => intro _; rfl
  | cons el rest ih =>
    intro h
    have hel := h el (by simp)
    have hpe := c10_piece_eq w root el hel.1 hel.2
    simp only [mergeLoop, mergeLoopOld]
    rw [ih (fun e he => h e (by simp [he]))]
    cases hn : processElement w root el with
    | ok p =>
      cases ho : processElementOld el with
      | ok q =>
        rw [hn, ho] at hpe
        simp only [exceptPiece, Option.some_inj] at hpe
        rw [hpe]
      | error m =>
        rw [hn, ho] at hpe
        exact absurd hpe (by simp [exceptPiece])
    | error m =>
      cases ho : processElementOld el with
      | ok q =>
        rw [hn, ho] at hpe
        exact absurd hpe (by simp [exceptPiece])
      | error m2 => rfl

/-- C10: on layouts whose elements carry only inline content (no remote
URL, no local file path) and whose decoded markup the sanitizer leaves
unchanged, the final pipeline and the earlier nested-svg iteration produce
character-identical output document text. -/
theorem c10_pipeline_equivalence (w : World) (root : String) (layout : Layout)
    (h : ∀ el ∈ layout.elements.getD [], inlineOnly el ∧ sanitizeUnchanged el) :
    (runMerge w root layout).doc = (runMergeOld layout).doc := by
  simp only [runMerge, runMergeOld]
  rw [mergeLoop_pieces_eq w root (layout.elements.getD []) h]

/-- C10 witness: both pipelines on a concrete one-element inline layout. -/
theorem c10_pipeline_equivalence_witness :
    (runMerge failWorld "/repo" ⟨none, some [exInlineEl]⟩).doc =
      (runMergeOld ⟨none, some [exInlineEl]⟩).doc := by
  apply c10_pipeline_equivalence
  intro el hel
  simp only [Option.getD, List.mem_singleton] at hel
  subst hel
  refine ⟨⟨rfl, rfl, rfl, rfl⟩, ?_⟩
  unfold sanitizeUnchanged inlineContent
  decide

/-! ## Regex-engine characterizations and parser shape (claim C9) -/

theorem char_eq_of_toNat (c d : Char) (h : c.toNat = d.toNat) : c = d :=
  Char.eq_of_val_eq (UInt32.ext h)

theorem ofNat_toNat_valid (n : Nat) (h : Nat.isValidChar n) : (Char.ofNat n).toNat = n := by
  unfold Char.ofNat
  rw [dif_pos h]
  unfold Char.ofNatAux Char.toNat
  simp only [UInt32.toNat]
  exact BitVec.toNat_ofNatLt n _

theorem toLower_eq_iff (c t : Char) (ht : t.toNat < 65 ∨ 90 < t.toNat) :
    (c.toLower = t) ↔ (c = t ∨ (65 ≤ c.toNat ∧ c.toNat ≤ 90 ∧ c.toNat + 32 = t.toNat)) := by
  unfold Char.toLower
  by_cases hr : 65 ≤ c.toNat ∧ c.toNat ≤ 90
  · rw [if_pos (by exact ⟨hr.1, hr.2⟩)]
    have hv : Nat.isValidChar (c.toNat + 32) := Or.inl (by omega)
    constructor
    · intro he
      have : (Char.ofNat (c.toNat + 32)).toNat = t.toNat := by rw [he]
      rw [ofNat_toNat_valid _ hv] at this
      exact Or.inr ⟨hr.1, hr.2, this⟩
    · rintro (rfl | ⟨_, _, hn⟩)
      · omega
      · apply char_eq_of_toNat
        rw [ofNat_toNat_valid _ hv]; exact hn
  · rw [if_neg (by exact fun hc => hr ⟨hc.1, hc.2⟩)]
    constructor
    · intro he; exact Or.inl he
    · rintro (rfl | ⟨h1, h2, _⟩)
      · rfl
      · exact absurd ⟨h1, h2⟩ hr

theorem ciEq_symbol_iff (c t : Char) (h1 : t.toLower = t) (h2 : t.toNat < 65) :
    ciEq c t = true ↔ c = t := by
  unfold ciEq
  rw [h1, decide_eq_true_iff]
  rw [toLower_eq_iff c t (Or.inl h2)]
  constructor
  · rintro (rfl | ⟨ha, _, hc⟩)
    · rfl
    · omega
  · intro h; exact Or.inl h

theorem ciEq_letter_iff (c t u : Char) (h1 : t.toLower = t) (h2 : 90 < t.toNat)
    (h3 : u.toNat + 32 = t.toNat) (h4 : 65 ≤ u.toNat) (h5 : u.toNat ≤ 90) :
    ciEq c t = true ↔ (c = t ∨ c = u) := by
  unfold ciEq
  rw [h1, decide_eq_true_iff]
  rw [toLower_eq_iff c t (Or.inr h2)]
  constructor
  · rintro (rfl | ⟨ha, hb, hc⟩)
    · exact Or.inl rfl
    · exact Or.inr (char_eq_of_toNat c u (by omega))
  · rintro (rfl | rfl)
    · exact Or.inl rfl
    · exact Or.inr ⟨h4, h5, h3⟩
theorem dropWhile_head_false (p : Char → Bool) :
    ∀ (l : List Char) (c : Char) (cs : List Char), l.dropWhile p = c :: cs → p c = false := by
  intro l
  induction l with
  | nil => intro c cs h; exact absurd h (by simp)
  | cons a as ih =>
    intro c cs h
    by_cases hp : p a = true
    · rw [List.dropWhile_cons_of_pos hp] at h
      exact ih c cs h
    · rw [List.dropWhile_cons_of_neg hp] at h
      cases h
      exact eq_false_of_ne_true hp

theorem starLoop_gt (R : List Char) (caps0 : List (Nat × List Char)) :
    ∀ (rest : List Char) (prev : Option Char),
      starLoop (fun c => c ≠ '>') false
        (fun st1 => mmatch (RE.cls (fun c => c = '>'))
          ⟨st1.prev, st1.rest, (1, R.take (R.length - st1.rest.length)) :: st1.caps⟩ some)
        prev rest caps0 =
      match rest.dropWhile (fun c => c ≠ '>') with
      | '>' :: rs =>
        some ⟨some '>', rs,
          (1, R.take (R.length - (rest.dropWhile (fun c => c ≠ '>')).length)) :: caps0⟩
      | _ => none := by
  intro rest
  induction rest with
  | nil => intro prev; rfl
  | cons c cs ih =>
    intro prev
    by_cases hc : c = '>'
    · subst hc
      simp only [starLoop]
      rw [if_neg (by simp)]
      rw [List.dropWhile_cons_of_neg (by simp)]
      simp only [mmatch]
      rw [if_pos (by simp)]
    · simp only [starLoop]
      rw [if_pos (by simp [hc])]
      rw [if_neg (by simp)]
      rw [List.dropWhile_cons_of_pos (by simp [hc])]
      rw [ih (some c)]
      cases hd : cs.dropWhile (fun c => c ≠ '>') with
      | nil =>
        rw [Option.none_orElse]
        simp only [mmatch]
        rw [if_neg (by simp [hc])]
      | cons d ds =>
        have hdg : d = '>' := by
          have := dropWhile_head_false _ cs d ds hd
          simp at this; exact this
        subst hdg
        rfl
theorem take_eq_takeWhile_gt (rest rs : List Char) (d : Char)
    (hd : rest.dropWhile (fun c => c ≠ '>') = d :: rs) :
    rest.take (rest.length - (d :: rs).length) = rest.takeWhile (fun c => c ≠ '>') := by
  have hsplit : rest.takeWhile (fun c => c ≠ '>') ++ d :: rs = rest := by
    rw [← hd]; exact List.takeWhile_append_dropWhile _ _
  have hlen : (rest.takeWhile (fun c => c ≠ '>')).length + (rs.length + 1) = rest.length := by
    have := congrArg List.length hsplit
    simpa using this
  have hpre : rest.takeWhile (fun c => c ≠ '>') <+: rest := List.takeWhile_prefix _
  calc rest.take (rest.length - (d :: rs).length)
      = rest.take ((rest.takeWhile (fun c => c ≠ '>')).length) := by
        congr 1
        simp only [List.length_cons]
        omega
    _ = rest.takeWhile (fun c => c ≠ '>') := (List.prefix_iff_eq_take.mp hpre).symm

theorem open_eval (prev : Option Char) (caps : List (Nat × List Char)) :
    ∀ (s : List Char),
    mmatch svgOpenRE ⟨prev, s, caps⟩ some =
      match s with
      | c0 :: c1 :: c2 :: c3 :: rest =>
        if c0 = '<' then
          if ciEq c1 's' = true then
            if ciEq c2 'v' = true then
              if ciEq c3 'g' = true then
                match rest.dropWhile (fun c => c ≠ '>') with
                | d :: rs => some ⟨some d, rs, (1, rest.takeWhile (fun c => c ≠ '>')) :: caps⟩
                | [] => none
              else none
            else none
          else none
        else none
      | _ => none := by
  intro s
  cases s with
  | nil => rfl
  | cons c0 s1 =>
    cases s1 with
    | nil =>
      have e : mmatch svgOpenRE ⟨prev, [c0], caps⟩ some =
          if (decide (c0 = '<')) = true then none else none := rfl
      rw [e, ite_self]
    | cons c1 s2 =>
      cases s2 with
      | nil =>
        have e : mmatch svgOpenRE ⟨prev, [c0, c1], caps⟩ some =
            if (decide (c0 = '<')) = true then
              (if ciEq c1 's' = true then none else none) else none := rfl
        rw [e, ite_self, ite_self]
      | cons c2 s3 =>
        cases s3 with
        | nil =>
          have e : mmatch svgOpenRE ⟨prev, [c0, c1, c2], caps⟩ some =
              if (decide (c0 = '<')) = true then
                (if ciEq c1 's' = true then
                  (if ciEq c2 'v' = true then none else none) else none) else none := rfl
          rw [e, ite_self, ite_self, ite_self]
        | cons c3 rest =>
          have e : mmatch svgOpenRE ⟨prev, c0 :: c1 :: c2 :: c3 :: rest, caps⟩ some =
              if (decide (c0 = '<')) = true then
                (if ciEq c1 's' = true then
                  (if ciEq c2 'v' = true then
                    (if ciEq c3 'g' = true then
                      starLoop (fun c => c ≠ '>') false
                        (fun st1 => mmatch (RE.cls (fun c => c = '>'))
                          ⟨st1.prev, st1.rest,
                            (1, rest.take (rest.length - st1.rest.length)) :: st1.caps⟩ some)
                        (some c3) rest caps
                    else none) else none) else none) else none := rfl
          rw [e]
          dsimp only
          by_cases h0 : c0 = '<'
          · rw [if_pos (by simp [h0]), if_pos h0]
            by_cases h1 : ciEq c1 's' = true
            · rw [if_pos h1, if_pos h1]
              by_cases h2 : ciEq c2 'v' = true
              · rw [if_pos h2, if_pos h2]
                by_cases h3 : ciEq c3 'g' = true
                · rw [if_pos h3, if_pos h3]
                  rw [starLoop_gt rest caps rest (some c3)]
                  cases hd : rest.dropWhile (fun c => c ≠ '>') with
                  | nil => rfl
                  | cons d rs =>
                    have hdg : d = '>' := by
                      have := dropWhile_head_false _ rest d rs hd
                      simp at this; exact this
                    subst hdg
                    rw [take_eq_takeWhile_gt rest rs '>' hd]
                    rfl
                · rw [if_neg h3, if_neg h3]
              · rw [if_neg h2, if_neg h2]
            · rw [if_neg h1, if_neg h1]
          · rw [if_neg (by simp [h0]), if_neg h0]
theorem open_mmatch_none_iff (prev : Option Char) (caps : List (Nat × List Char)) :
    ∀ (s : List Char),
      (mmatch svgOpenRE ⟨prev, s, caps⟩ some = none) ↔ openHere s = false := by
  intro s
  rw [open_eval]
  cases s with
  | nil => simp [openHere]
  | cons c0 s1 =>
    cases s1 with
    | nil => simp [openHere]
    | cons c1 s2 =>
      cases s2 with
      | nil => simp [openHere]
      | cons c2 s3 =>
        cases s3 with
        | nil => simp [openHere]
        | cons c3 rest =>
          dsimp only
          cases hd : rest.dropWhile (fun c => c ≠ '>') with
          | nil =>
            simp only [openHere, hd, List.isEmpty_nil]
            split_ifs <;> simp_all
          | cons d rs =>
            simp only [openHere, hd, List.isEmpty_cons]
            split_ifs <;> simp_all
theorem findFirst_open_none :
    ∀ (s : List Char) (prev : Option Char),
      (findFirstAux svgOpenRE prev s = none) ↔ hasOpenTag s = false := by
  intro s
  induction s with
  | nil =>
    intro prev
    simp only [findFirstAux]
    simp [hasOpenTag]
  | cons c cs ih =>
    intro prev
    simp only [findFirstAux]
    cases hm : mmatch svgOpenRE ⟨prev, c :: cs, []⟩ some with
    | some st =>
      have ho : openHere (c :: cs) = true := by
        by_contra hfalse
        have := (open_mmatch_none_iff prev [] (c :: cs)).mpr (by simpa using hfalse)
        rw [hm] at this
        exact absurd this (by simp)
      simp [hasOpenTag, ho]
    | none =>
      have ho : openHere (c :: cs) = false := (open_mmatch_none_iff prev [] (c :: cs)).mp hm
      simp only [hasOpenTag, ho, Bool.false_or]
      rw [← ih (some c)]
      simp
theorem findFirst_open_some :
    ∀ (s : List Char) (prev : Option Char) (om : MRes),
      findFirstAux svgOpenRE prev s = some om →
      ∃ c1 c2 c3 atts,
        om.matched = '<' :: c1 :: c2 :: c3 :: (atts ++ ['>']) ∧
        ciEq c1 's' = true ∧ ciEq c2 'v' = true ∧ ciEq c3 'g' = true ∧
        atts.all (fun c => c ≠ '>') = true ∧
        s = om.pre ++ om.matched ++ om.post := by
  intro s
  induction s with
  | nil =>
    intro prev om h
    simp only [findFirstAux] at h
    exact absurd h (by simp)
  | cons c cs ih =>
    intro prev om h
    simp only [findFirstAux] at h
    cases hm : mmatch svgOpenRE ⟨prev, c :: cs, []⟩ some with
    | some st =>
      rw [hm] at h
      dsimp only at h
      rw [open_eval] at hm
      cases cs with
      | nil => exact absurd hm (by simp)
      | cons c1 cs1 =>
        cases cs1 with
        | nil => exact absurd hm (by simp)
        | cons c2 cs2 =>
          cases cs2 with
          | nil => exact absurd hm (by simp)
          | cons c3 rest =>
            dsimp only at hm
            by_cases h0 : c = '<'
            · rw [if_pos h0] at hm
              by_cases h1 : ciEq c1 's' = true
              · rw [if_pos h1] at hm
                by_cases h2 : ciEq c2 'v' = true
                · rw [if_pos h2] at hm
                  by_cases h3 : ciEq c3 'g' = true
                  · rw [if_pos h3] at hm
                    cases hd : rest.dropWhile (fun c => c ≠ '>') with
                    | nil => rw [hd] at hm; exact absurd hm (by simp)
                    | cons d rs =>
                      rw [hd] at hm
                      dsimp only at hm
                      have hdg : d = '>' := by
                        have := dropWhile_head_false _ rest d rs hd
                        simp at this; exact this
                      subst hdg
                      have hst : st = ⟨some '>', rs,
                          [(1, rest.takeWhile (fun c => c ≠ '>'))]⟩ := by
                        cases hm; rfl
                      subst hst
                      subst h0
                      have hrest : rest = rest.takeWhile (fun c => c ≠ '>') ++ '>' :: rs := by
                        conv_lhs => rw [← List.takeWhile_append_dropWhile
                          (fun c => (c ≠ '>' : Bool)) rest]
                        rw [hd]
                      have hs : '<' :: c1 :: c2 :: c3 :: rest =
                          ('<' :: c1 :: c2 :: c3 ::
                            (rest.takeWhile (fun c => c ≠ '>') ++ ['>'])) ++ rs := by
                        conv_lhs => rw [hrest]
                        simp
                      cases Option.some.inj h
                      have htake : (('<' :: c1 :: c2 :: c3 :: rest).take
                          (('<' :: c1 :: c2 :: c3 :: rest).length - rs.length)) =
                          '<' :: c1 :: c2 :: c3 ::
                            (rest.takeWhile (fun c => c ≠ '>') ++ ['>']) := by
                        conv_lhs => rw [hs]
                        rw [List.take_left' (by
                          simp only [List.length_append, List.length_cons]
                          omega)]
                      refine ⟨c1, c2, c3, rest.takeWhile (fun c => c ≠ '>'),
                        htake, h1, h2, h3, ?_, ?_⟩
                      · rw [List.all_eq_true]
                        intro a ha
                        have := List.mem_takeWhile_imp ha
                        simpa using this
                      · show ('<' :: c1 :: c2 :: c3 :: rest) = [] ++
                          (('<' :: c1 :: c2 :: c3 :: rest).take
                            (('<' :: c1 :: c2 :: c3 :: rest).length - rs.length)) ++ rs
                        rw [List.nil_append, htake]
                        exact hs
                  · rw [if_neg h3] at hm; exact absurd hm (by simp)
                · rw [if_neg h2] at hm; exact absurd hm (by simp)
              · rw [if_neg h1] at hm; exact absurd hm (by simp)
            · rw [if_neg h0] at hm; exact absurd hm (by simp)
    | none =>
      rw [hm] at h
      dsimp only at h
      cases hr : findFirstAux svgOpenRE (some c) cs with
      | none => rw [hr] at h; exact absurd h (by simp)
      | some x =>
        rw [hr] at h
        have h := Option.some.inj h
        obtain ⟨c1, c2, c3, atts, hmt, h1, h2, h3, hall, hdec⟩ := ih (some c) x hr
        refine ⟨c1, c2, c3, atts, ?_, h1, h2, h3, hall, ?_⟩
        · rw [← h]; exact hmt
        · rw [← h]
          dsimp only
          rw [List.cons_append, List.cons_append]
          rw [← hdec]
theorem ciEq_toLower (a b : Char) (h : ciEq a b = true) : a.toLower = b.toLower :=
  of_decide_eq_true h

theorem toLower_ciEq (a b : Char) (h : a.toLower = b.toLower) : ciEq a b = true :=
  decide_eq_true h

theorem mem_of_dropWhile_gt (rest : List Char) (hg : '>' ∈ rest) :
    (rest.dropWhile (fun c => c ≠ '>')).isEmpty = false := by
  cases hd : rest.dropWhile (fun c => c ≠ '>') with
  | cons d ds => rfl
  | nil =>
    rw [List.dropWhile_eq_nil_iff] at hd
    have := hd '>' hg
    simp at this

theorem hasOpenTag_iff_locatable : ∀ s : List Char, hasOpenTag s = true ↔ svgOpenLocatable s := by
  have hsvg : ("<svg".data : List Char) = ['<', 's', 'v', 'g'] := rfl
  intro s
  induction s with
  | nil =>
    constructor
    · intro h; exact absurd h (by simp [hasOpenTag])
    · rintro ⟨pre, mid, post, hmap⟩
      rw [hsvg] at hmap
      have := congrArg List.length hmap
      simp at this
      omega
  | cons c cs ih =>
    constructor
    · intro h
      simp only [hasOpenTag, Bool.or_eq_true] at h
      rcases h with h | h
      · cases cs with
        | nil => exact absurd h (by simp [openHere])
        | cons c1 cs1 =>
          cases cs1 with
          | nil => exact absurd h (by simp [openHere])
          | cons c2 cs2 =>
            cases cs2 with
            | nil => exact absurd h (by simp [openHere])
            | cons c3 rest =>
              simp only [openHere, Bool.and_eq_true, decide_eq_true_eq,
                Bool.not_eq_true'] at h
              obtain ⟨⟨⟨⟨hc, h1⟩, h2⟩, h3⟩, hne⟩ := h
              subst hc
              cases hd : rest.dropWhile (fun c => c ≠ '>') with
              | nil => rw [hd] at hne; simp at hne
              | cons d rs =>
                have hdg : d = '>' := by
                  have := dropWhile_head_false _ rest d rs hd
                  simp at this; exact this
                subst hdg
                have hrest : rest = rest.takeWhile (fun c => c ≠ '>') ++ '>' :: rs := by
                  conv_lhs => rw [← List.takeWhile_append_dropWhile
                    (fun c => (c ≠ '>' : Bool)) rest]
                  rw [hd]
                refine ⟨[], (rest.takeWhile (fun c => c ≠ '>')).map Char.toLower,
                  rs.map Char.toLower, ?_⟩
                rw [hsvg]
                conv_lhs => rw [hrest]
                simp only [List.map_cons, List.map_append, List.nil_append,
                  List.cons_append, List.append_assoc]
                rw [ciEq_toLower c1 's' h1, ciEq_toLower c2 'v' h2, ciEq_toLower c3 'g' h3]
                rfl
      · obtain ⟨pre, mid, post, he⟩ := ih.mp h
        refine ⟨c.toLower :: pre, mid, post, ?_⟩
        rw [List.map_cons, he]
        rfl
    · rintro ⟨pre, mid, post, hmap⟩
      cases pre with
      | cons p ps =>
        rw [List.map_cons] at hmap
        have htl := (List.cons.injEq _ _ _ _ ▸ hmap)
        simp only [List.cons_append] at hmap
        have h2 : cs.map Char.toLower = ps ++ "<svg".data ++ mid ++ '>' :: post := by
          have := List.tail_eq_of_cons_eq hmap
          simpa [List.append_assoc] using this
        have : hasOpenTag cs = true := ih.mpr ⟨ps, mid, post, by simpa [List.append_assoc] using h2⟩
        simp [hasOpenTag, this]
      | nil =>
        rw [hsvg] at hmap
        simp only [List.nil_append, List.cons_append, List.map_cons] at hmap
        cases cs with
        | nil => simp at hmap
        | cons c1 cs1 =>
          cases cs1 with
          | nil => simp at hmap
          | cons c2 cs2 =>
            cases cs2 with
            | nil => simp at hmap
            | cons c3 rest =>
              simp only [List.map_cons, List.cons.injEq] at hmap
              obtain ⟨hc, h1, h2, h3, hrest⟩ := hmap
              have hc' : c = '<' := by
                rw [toLower_eq_iff c '<' (by left; decide)] at hc
                rcases hc with rfl | ⟨_, _, hn⟩
                · rfl
                · have : ('<').toNat = 60 := by decide
                  omega
              have hg : '>' ∈ rest := by
                have : '>' ∈ rest.map Char.toLower := by
                  rw [hrest]; simp
                obtain ⟨x, hx, hlx⟩ := List.mem_map.mp this
                have hx' : x = '>' := by
                  rw [toLower_eq_iff x '>' (by left; decide)] at hlx
                  rcases hlx with rfl | ⟨_, _, hn⟩
                  · rfl
                  · have : ('>').toNat = 62 := by decide
                    omega
                rw [← hx']; exact hx
              have ho : openHere (c :: c1 :: c2 :: c3 :: rest) = true := by
                simp only [openHere, Bool.and_eq_true, decide_eq_true_eq, Bool.not_eq_true']
                refine ⟨⟨⟨⟨hc', ?_⟩, ?_⟩, ?_⟩, mem_of_dropWhile_gt rest hg⟩
                · exact toLower_ciEq c1 's' (by rw [h1]; decide)
                · exact toLower_ciEq c2 'v' (by rw [h2]; decide)
                · exact toLower_ciEq c3 'g' (by rw [h3]; decide)
              simp [hasOpenTag, ho]
theorem starLoop_ws (caps0 : List (Nat × List Char)) :
    ∀ (rest : List Char) (prev : Option Char),
      starLoop isJsWs false (fun st1 => mmatch RE.eos st1 some) prev rest caps0 =
        if rest.all isJsWs then
          some ⟨(match rest.getLast? with | some c => some c | none => prev), [], caps0⟩
        else none := by
  intro rest
  induction rest with
  | nil => intro prev; rfl
  | cons c cs ih =>
    intro prev
    by_cases hc : isJsWs c = true
    · simp only [starLoop]
      rw [if_pos hc]
      rw [if_neg (by simp)]
      rw [ih (some c)]
      by_cases ha : cs.all isJsWs = true
      · rw [if_pos ha, if_pos (by simp [hc, ha])]
        have : mmatch RE.eos ⟨prev, c :: cs, caps0⟩ some = none := rfl
        cases hl : cs.getLast? with
        | none =>
          have hnil : cs = [] := by
            cases cs with
            | nil => rfl
            | cons d ds => simp [List.getLast?_concat] at hl
          subst hnil
          rfl
        | some d =>
          have hgl : (c :: cs).getLast? = some d := by
            cases cs with
            | nil => simp at hl
            | cons e es => rw [List.getLast?_cons_cons]; exact hl
          rw [hgl]
          rfl
      · rw [if_neg ha, if_neg (by simp [ha])]
        rfl
    · simp only [starLoop]
      rw [if_neg hc]
      rw [if_neg (by simp [hc])]
      rfl
theorem close_eval (prev : Option Char) (caps : List (Nat × List Char)) :
    ∀ (s : List Char),
    mmatch svgCloseRE ⟨prev, s, caps⟩ some =
      match s with
      | c0 :: c1 :: c2 :: c3 :: c4 :: c5 :: rest =>
        if c0 = '<' then
          if c1 = '/' then
            if ciEq c2 's' = true then
              if ciEq c3 'v' = true then
                if ciEq c4 'g' = true then
                  if c5 = '>' then
                    if rest.all isJsWs then
                      some ⟨(match rest.getLast? with
                              | some c => some c
                              | none => some c5), [], caps⟩
                    else none
                  else none
                else none
              else none
            else none
          else none
        else none
      | _ => none := by
  intro s
  cases s with
  | nil => rfl
  | cons c0 s1 =>
  cases s1 with
  | nil =>
    have e : mmatch svgCloseRE ⟨prev, [c0], caps⟩ some =
        if (decide (c0 = '<')) = true then none else none := rfl
    rw [e, ite_self]
  | cons c1 s2 =>
  cases s2 with
  | nil =>
    have e : mmatch svgCloseRE ⟨prev, [c0, c1], caps⟩ some =
        if (decide (c0 = '<')) = true then
          (if (decide (c1 = '/')) = true then none else none) else none := rfl
    rw [e, ite_self, ite_self]
  | cons c2 s3 =>
  cases s3 with
  | nil =>
    have e : mmatch svgCloseRE ⟨prev, [c0, c1, c2], caps⟩ some =
        if (decide (c0 = '<')) = true then
          (if (decide (c1 = '/')) = true then
            (if ciEq c2 's' = true then none else none) else none) else none := rfl
    rw [e, ite_self, ite_self, ite_self]
  | cons c3 s4 =>
  cases s4 with
  | nil =>
    have e : mmatch svgCloseRE ⟨prev, [c0, c1, c2, c3], caps⟩ some =
        if (decide (c0 = '<')) = true then
          (if (decide (c1 = '/')) = true then
            (if ciEq c2 's' = true then
              (if ciEq c3 'v' = true then none else none) else none) else none) else none := rfl
    rw [e, ite_self, ite_self, ite_self, ite_self]
  | cons c4 s5 =>
  cases s5 with
  | nil =>
    have e : mmatch svgCloseRE ⟨prev, [c0, c1, c2, c3, c4], caps⟩ some =
        if (decide (c0 = '<')) = true then
          (if (decide (c1 = '/')) = true then
            (if ciEq c2 's' = true then
              (if ciEq c3 'v' = true then
                (if ciEq c4 'g' = true then none else none)
              else none) else none) else none) else none := rfl
    rw [e, ite_self, ite_self, ite_self, ite_self, ite_self]
  | cons c5 rest =>
    have e : mmatch svgCloseRE ⟨prev, c0 :: c1 :: c2 :: c3 :: c4 :: c5 :: rest, caps⟩ some =
        if (decide (c0 = '<')) = true then
          (if (decide (c1 = '/')) = true then
            (if ciEq c2 's' = true then
              (if ciEq c3 'v' = true then
                (if ciEq c4 'g' = true then
                  (if (decide (c5 = '>')) = true then
                    starLoop isJsWs false (fun st1 => mmatch RE.eos st1 some)
                      (some c5) rest caps
                  else none)
                else none)
              else none) else none) else none) else none := rfl
    rw [e]
    dsimp only
    by_cases h0 : c0 = '<'
    · rw [if_pos (by simp [h0]), if_pos h0]
      by_cases h1 : c1 = '/'
      · rw [if_pos (by simp [h1]), if_pos h1]
        by_cases h2 : ciEq c2 's' = true
        · rw [if_pos h2, if_pos h2]
          by_cases h3 : ciEq c3 'v' = true
          · rw [if_pos h3, if_pos h3]
            by_cases h4 : ciEq c4 'g' = true
            · rw [if_pos h4, if_pos h4]
              by_cases h5 : c5 = '>'
              · rw [if_pos (by simp [h5]), if_pos h5]
                rw [starLoop_ws caps rest (some c5)]
              · rw [if_neg (by simp [h5]), if_neg h5]
            · rw [if_neg h4, if_neg h4]
          · rw [if_neg h3, if_neg h3]
        · rw [if_neg h2, if_neg h2]
      · rw [if_neg (by simp [h1]), if_neg h1]
    · rw [if_neg (by simp [h0]), if_neg h0]
theorem ciEq_comm (a b : Char) : ciEq a b = ciEq b a := by
  unfold ciEq
  simp [eq_comm]

theorem startsCI_close_elim (s : List Char)
    (h : startsWithCI "</svg>".data s = true) :
    ∃ c2 c3 c4 rest, s = '<' :: '/' :: c2 :: c3 :: c4 :: '>' :: rest ∧
      ciEq c2 's' = true ∧ ciEq c3 'v' = true ∧ ciEq c4 'g' = true := by
  have hdt : ("</svg>".data : List Char) = ['<', '/', 's', 'v', 'g', '>'] := rfl
  rw [hdt] at h
  cases s with
  | nil => exact absurd h (by simp [startsWithCI])
  | cons c0 s1 =>
  cases s1 with
  | nil => exact absurd h (by simp [startsWithCI])
  | cons c1 s2 =>
  cases s2 with
  | nil => exact absurd h (by simp [startsWithCI])
  | cons c2 s3 =>
  cases s3 with
  | nil => exact absurd h (by simp [startsWithCI])
  | cons c3 s4 =>
  cases s4 with
  | nil => exact absurd h (by simp [startsWithCI])
  | cons c4 s5 =>
  cases s5 with
  | nil => exact absurd h (by simp [startsWithCI])
  | cons c5 rest =>
    simp only [startsWithCI, Bool.and_eq_true] at h
    obtain ⟨h0, h1, h2, h3, h4, h5, _⟩ := h
    rw [ciEq_comm] at h0 h1 h2 h3 h4 h5
    rw [ciEq_symbol_iff c0 '<' (by decide) (by decide)] at h0
    rw [ciEq_symbol_iff c1 '/' (by decide) (by decide)] at h1
    rw [ciEq_symbol_iff c5 '>' (by decide) (by decide)] at h5
    subst h0; subst h1; subst h5
    exact ⟨c2, c3, c4, rest, rfl, h2, h3, h4⟩

theorem startsCI_close_intro (c2 c3 c4 : Char) (rest : List Char)
    (h2 : ciEq c2 's' = true) (h3 : ciEq c3 'v' = true) (h4 : ciEq c4 'g' = true) :
    startsWithCI "</svg>".data ('<' :: '/' :: c2 :: c3 :: c4 :: '>' :: rest) = true := by
  have hdt : ("</svg>".data : List Char) = ['<', '/', 's', 'v', 'g', '>'] := rfl
  rw [hdt]
  simp only [startsWithCI, Bool.and_eq_true]
  refine ⟨by decide, by decide, ?_, ?_, ?_, by decide, trivial⟩
  · rw [ciEq_comm]; exact h2
  · rw [ciEq_comm]; exact h3
  · rw [ciEq_comm]; exact h4
theorem findFirst_close :
    ∀ (s : List Char), (∀ c, s.getLast? = some c → isJsWs c = false) →
    ∀ (prev : Option Char),
      findFirstAux svgCloseRE prev s =
        if endsWithCloseTag s then
          some ⟨s.take (s.length - 6), s.drop (s.length - 6), [], []⟩
        else none := by
  intro s
  induction s with
  | nil =>
    intro hT prev
    rw [if_neg (by decide)]
    rfl
  | cons c cs ih =>
    intro hT prev
    have hTcs : ∀ d, cs.getLast? = some d → isJsWs d = false := by
      intro d hdl
      apply hT
      cases cs with
      | nil => simp at hdl
      | cons e es => rw [List.getLast?_cons_cons]; exact hdl
    simp only [findFirstAux]
    cases hm : mmatch svgCloseRE ⟨prev, c :: cs, []⟩ some with
    | some st =>
      rw [close_eval] at hm
      cases cs with
      | nil => exact absurd hm (by simp)
      | cons c1 cs1 =>
      cases cs1 with
      | nil => exact absurd hm (by simp)
      | cons c2 cs2 =>
      cases cs2 with
      | nil => exact absurd hm (by simp)
      | cons c3 cs3 =>
      cases cs3 with
      | nil => exact absurd hm (by simp)
      | cons c4 cs4 =>
      cases cs4 with
      | nil => exact absurd hm (by simp)
      | cons c5 rest =>
        dsimp only at hm
        by_cases h0 : c = '<'
        case neg => rw [if_neg h0] at hm; exact absurd hm (by simp)
        rw [if_pos h0] at hm
        by_cases h1 : c1 = '/'
        case neg => rw [if_neg h1] at hm; exact absurd hm (by simp)
        rw [if_pos h1] at hm
        by_cases h2 : ciEq c2 's' = true
        case neg => rw [if_neg h2] at hm; exact absurd hm (by simp)
        rw [if_pos h2] at hm
        by_cases h3 : ciEq c3 'v' = true
        case neg => rw [if_neg h3] at hm; exact absurd hm (by simp)
        rw [if_pos h3] at hm
        by_cases h4 : ciEq c4 'g' = true
        case neg => rw [if_neg h4] at hm; exact absurd hm (by simp)
        rw [if_pos h4] at hm
        by_cases h5 : c5 = '>'
        case neg => rw [if_neg h5] at hm; exact absurd hm (by simp)
        rw [if_pos h5] at hm
        by_cases ha : rest.all isJsWs = true
        case neg => rw [if_neg ha] at hm; exact absurd hm (by simp)
        rw [if_pos ha] at hm
        have hrest : rest = [] := by
          cases rest with
          | nil => rfl
          | cons r rs =>
            exfalso
            have hgl : (c :: c1 :: c2 :: c3 :: c4 :: c5 :: r :: rs).getLast? =
                (r :: rs).getLast? := by
              simp [List.getLast?_cons_cons]
            obtain ⟨d, hd⟩ : ∃ d, (r :: rs).getLast? = some d := by
              cases hgl2 : (r :: rs).getLast? with
              | some d => exact ⟨d, rfl⟩
              | none => simp at hgl2
            have hmem : d ∈ r :: rs := by
              have hgle : (r :: rs).getLast? = some ((r :: rs).getLast (by simp)) :=
                List.getLast?_eq_getLast _ (by simp)
              rw [hgle] at hd
              have hdd := Option.some.inj hd
              rw [← hdd]
              exact List.getLast_mem _
            rw [List.all_eq_true] at ha
            have hws := ha d hmem
            have := hT d (by rw [hgl]; exact hd)
            rw [this] at hws
            exact absurd hws (by simp)
        subst hrest
        subst h0; subst h1; subst h5
        have hst : st = ⟨some '>', [], []⟩ := by cases hm; rfl
        subst hst
        have hends : endsWithCloseTag ['<', '/', c2, c3, c4, '>'] = true := by
          have hin := startsCI_close_intro c2 c3 c4 [] h2 h3 h4
          simp only [endsWithCloseTag]
          rw [show (['<', '/', c2, c3, c4, '>'] : List Char).length - 6 = 0 from by simp]
          rw [List.drop_zero]
          rw [hin]
          rfl
        rw [if_pos hends]
        rfl
    | none =>
      dsimp only
      rw [ih hTcs (some c)]
      have hends : endsWithCloseTag (c :: cs) = endsWithCloseTag cs := by
        by_cases ha : 6 ≤ cs.length
        · have hdrop : (c :: cs).drop ((c :: cs).length - 6) = cs.drop (cs.length - 6) := by
            have he : (c :: cs).length - 6 = (cs.length - 6) + 1 := by
              simp only [List.length_cons]; omega
            rw [he, List.drop_succ_cons]
          simp only [endsWithCloseTag, hdrop]
          rw [decide_eq_true (show 6 ≤ (c :: cs).length from by
            simp only [List.length_cons]; omega)]
          rw [decide_eq_true ha]
        · by_cases hb : cs.length = 5
          · have hcs : endsWithCloseTag cs = false := by
              simp only [endsWithCloseTag]
              rw [decide_eq_false (by omega)]
              exact Bool.and_false _
            rw [hcs]
            by_contra hne
            have htrue : endsWithCloseTag (c :: cs) = true := by
              cases hcc : endsWithCloseTag (c :: cs) with
              | false => exact absurd (by rw [hcc]) hne
              | true => rfl
            have hlen : (c :: cs).length = 6 := by simp [hb]
            simp only [endsWithCloseTag, Bool.and_eq_true] at htrue
            obtain ⟨hsci, _⟩ := htrue
            rw [hlen] at hsci
            simp only [Nat.sub_self, List.drop_zero] at hsci
            obtain ⟨d2, d3, d4, rest', hshape, hd2, hd3, hd4⟩ := startsCI_close_elim _ hsci
            have hr0 : rest' = [] := by
              have hl := congrArg List.length hshape
              simp only [List.length_cons] at hl
              have hz : rest'.length = 0 := by omega
              exact List.length_eq_zero.mp hz
            subst hr0
            rw [hshape, close_eval] at hm
            dsimp only at hm
            simp [hd2, hd3, hd4] at hm
          · have e1 : endsWithCloseTag (c :: cs) = false := by
              simp only [endsWithCloseTag]
              rw [decide_eq_false (by simp only [List.length_cons]; omega)]
              exact Bool.and_false _
            have e2 : endsWithCloseTag cs = false := by
              simp only [endsWithCloseTag]
              rw [decide_eq_false (by omega)]
              exact Bool.and_false _
            rw [e1, e2]
      rw [hends]
      by_cases he : endsWithCloseTag cs = true
      · rw [if_pos he, if_pos he]
        have hlen6 : 6 ≤ cs.length := by
          simp only [endsWithCloseTag, Bool.and_eq_true, decide_eq_true_eq] at he
          exact he.2
        have ht : (c :: cs).length - 6 = (cs.length - 6) + 1 := by
          simp only [List.length_cons]; omega
        rw [ht, List.take_succ_cons, List.drop_succ_cons]
        rfl
      · rw [if_neg he, if_neg he]
        rfl
theorem jsTrimL_last (l : List Char) :
    ∀ c, (jsTrimL l).getLast? = some c → isJsWs c = false := by
  intro c hc
  unfold jsTrimL at hc
  rw [List.getLast?_reverse] at hc
  cases hd : ((l.dropWhile isJsWs).reverse).dropWhile isJsWs with
  | nil => rw [hd] at hc; simp at hc
  | cons d ds =>
    rw [hd] at hc
    simp only [List.head?_cons, Option.some_inj] at hc
    rw [← hc]
    exact dropWhile_head_false _ _ _ _ hd

theorem stripXmlProlog_last (s : String) :
    ∀ c, (stripXmlProlog s).data.getLast? = some c → isJsWs c = false := by
  intro c
  unfold stripXmlProlog
  dsimp only
  by_cases hs : startsWithCI "<?xml".data (s.data.dropWhile isJsWs) = true
  · rw [if_pos hs]
    cases hq : findQEnd ((s.data.dropWhile isJsWs).drop 5) with
    | some r => exact jsTrimL_last _ c
    | none => exact jsTrimL_last _ c
  · rw [if_neg hs]
    exact jsTrimL_last _ c
/-- The open-tag search is leftmost: a successful `findFirstAux` leaves no
earlier position at which the open regex matches. -/
theorem findFirst_open_leftmost :
    ∀ (s : List Char) (prev : Option Char) (om : MRes),
      findFirstAux svgOpenRE prev s = some om →
      ∀ i, i < om.pre.length → openHere (s.drop i) = false := by
  intro s
  induction s with
  | nil =>
    intro prev om h
    simp only [findFirstAux] at h
    exact absurd h (by simp)
  | cons c cs ih =>
    intro prev om h i hi
    simp only [findFirstAux] at h
    cases hm : mmatch svgOpenRE ⟨prev, c :: cs, []⟩ some with
    | some st =>
      rw [hm] at h
      dsimp only at h
      have hom := Option.some.inj h
      rw [← hom] at hi
      simp at hi
    | none =>
      rw [hm] at h
      dsimp only at h
      cases hr : findFirstAux svgOpenRE (some c) cs with
      | none => rw [hr] at h; exact absurd h (by simp)
      | some x =>
        rw [hr] at h
        have hom := Option.some.inj h
        rw [← hom] at hi
        dsimp only at hi
        cases i with
        | zero => exact (open_mmatch_none_iff prev [] (c :: cs)).mp hm
        | succ j =>
          rw [List.drop_succ_cons]
          refine ih (some c) x hr j ?_
          simp only [List.length_cons] at hi
          omega

/-- A locatable decomposition at `pre` means the open regex matches at
position `pre.length`. -/
theorem locatable_openHere :
    ∀ (pre : List Char) (s mid post : List Char),
      s.map Char.toLower = pre ++ "<svg".data ++ mid ++ '>' :: post →
      openHere (s.drop pre.length) = true := by
  have hsvg : ("<svg".data : List Char) = ['<', 's', 'v', 'g'] := rfl
  intro pre
  induction pre with
  | nil =>
    intro s mid post h
    rw [hsvg] at h
    simp only [List.nil_append, List.cons_append] at h
    rw [List.length_nil, List.drop_zero]
    cases s with
    | nil => simp at h
    | cons c cs =>
    cases cs with
    | nil => simp at h
    | cons c1 cs1 =>
    cases cs1 with
    | nil => simp at h
    | cons c2 cs2 =>
    cases cs2 with
    | nil => simp at h
    | cons c3 rest =>
      simp only [List.map_cons, List.cons.injEq] at h
      obtain ⟨hc, h1, h2, h3, hrest⟩ := h
      have hc' : c = '<' := by
        rw [toLower_eq_iff c '<' (by left; decide)] at hc
        rcases hc with rfl | ⟨_, _, hn⟩
        · rfl
        · have : ('<').toNat = 60 := by decide
          omega
      have hg : '>' ∈ rest := by
        have : '>' ∈ rest.map Char.toLower := by
          rw [hrest]; simp
        obtain ⟨x, hx, hlx⟩ := List.mem_map.mp this
        have hx' : x = '>' := by
          rw [toLower_eq_iff x '>' (by left; decide)] at hlx
          rcases hlx with rfl | ⟨_, _, hn⟩
          · rfl
          · have : ('>').toNat = 62 := by decide
            omega
        rw [← hx']; exact hx
      simp only [openHere, Bool.and_eq_true, decide_eq_true_eq, Bool.not_eq_true']
      refine ⟨⟨⟨⟨hc', ?_⟩, ?_⟩, ?_⟩, mem_of_dropWhile_gt rest hg⟩
      · exact toLower_ciEq c1 's' (by rw [h1]; decide)
      · exact toLower_ciEq c2 'v' (by rw [h2]; decide)
      · exact toLower_ciEq c3 'g' (by rw [h3]; decide)
  | cons p ps ih =>
    intro s mid post h
    cases s with
    | nil => simp at h
    | cons c cs =>
      rw [List.map_cons] at h
      simp only [List.cons_append, List.cons.injEq] at h
      rw [List.length_cons, List.drop_succ_cons]
      exact ih cs mid post (by rw [h.2])

/-- C9 (corrected): the failure half of the claim holds — the parser fails
iff no `<svg …>` open tag can be located (case-insensitively, with a later
`>`) in the prolog-stripped trimmed text — and a missing close tag indeed
degrades into "rest of document is inner content".  But the inner markup
does not always stop at the start of the final root close tag: the close
regex `/<\/svg>\s*$/i` recognises a close tag only at the very end of the
trimmed document, so the inner markup of a successful parse runs from the
end of the first open tag — the decomposition below is pinned leftmost: no
open tag can be located strictly earlier — to just before the trailing
close tag when the document ends with one, and to the end of the document
otherwise. -/
theorem c9_parse (s : String) :
    (extractSvgParts s = none ↔ ¬ svgOpenLocatable (stripXmlProlog s).data) ∧
    (∀ inner attrs, extractSvgParts s = some (inner, attrs) →
      ∃ pre c1 c2 c3 atts post,
        (stripXmlProlog s).data = pre ++ '<' :: c1 :: c2 :: c3 :: (atts ++ '>' :: post) ∧
        ciEq c1 's' = true ∧ ciEq c2 'v' = true ∧ ciEq c3 'g' = true ∧
        atts.all (fun c => c ≠ '>') = true ∧
        (∀ pre2 mid2 post2,
          (stripXmlProlog s).data.map Char.toLower =
            pre2 ++ "<svg".data ++ mid2 ++ '>' :: post2 →
          pre.length ≤ pre2.length) ∧
        inner.data = post.take
          (innerEndOf (stripXmlProlog s).data - (pre.length + 5 + atts.length))) := by
  constructor
  · constructor
    · intro h hloc
      have hot : hasOpenTag (stripXmlProlog s).data = true :=
        (hasOpenTag_iff_locatable _).mpr hloc
      simp only [extractSvgParts] at h
      cases hf : findFirstAux svgOpenRE none (stripXmlProlog s).data with
      | some om => rw [hf] at h; dsimp only at h; exact absurd h (by simp)
      | none =>
        have := (findFirst_open_none _ none).mp hf
        rw [hot] at this
        exact absurd this (by simp)
    · intro hnl
      have hot : hasOpenTag (stripXmlProlog s).data = false := by
        cases hcc : hasOpenTag (stripXmlProlog s).data with
        | false => rfl
        | true => exact absurd ((hasOpenTag_iff_locatable _).mp hcc) hnl
      have hf : findFirstAux svgOpenRE none (stripXmlProlog s).data = none :=
        (findFirst_open_none _ none).mpr hot
      simp only [extractSvgParts]
      rw [hf]
  · intro inner attrs h
    simp only [extractSvgParts] at h
    cases hf : findFirstAux svgOpenRE none (stripXmlProlog s).data with
    | none => rw [hf] at h; exact absurd h (by simp)
    | some om =>
      rw [hf] at h
      dsimp only at h
      obtain ⟨c1, c2, c3, atts, hmt, h1, h2, h3, hall, hdec⟩ :=
        findFirst_open_some _ none om hf
      have hpair := Option.some.inj h
      have hfst := congrArg Prod.fst hpair
      dsimp only at hfst
      have hinner : inner.data =
          (((stripXmlProlog s).data.drop (om.pre.length + om.matched.length)).take
            ((match findFirstAux svgCloseRE none (stripXmlProlog s).data with
              | some cm => cm.pre.length
              | none => (stripXmlProlog s).data.length) -
              (om.pre.length + om.matched.length))) := by
        rw [← hfst]
      have hclose := findFirst_close (stripXmlProlog s).data (stripXmlProlog_last s) none
      have hie : (match findFirstAux svgCloseRE none (stripXmlProlog s).data with
          | some cm => cm.pre.length
          | none => (stripXmlProlog s).data.length) =
          innerEndOf (stripXmlProlog s).data := by
        rw [hclose]
        unfold innerEndOf
        by_cases he : endsWithCloseTag (stripXmlProlog s).data = true
        · rw [if_pos he, if_pos he]
          dsimp only
          rw [List.length_take]
          exact Nat.min_eq_left (Nat.sub_le _ _)
        · rw [if_neg he, if_neg he]
      refine ⟨om.pre, c1, c2, c3, atts, om.post, ?_, h1, h2, h3, hall, ?_, ?_⟩
      · conv_lhs => rw [hdec, hmt]
        simp [List.append_assoc]
      · intro pre2 mid2 post2 hl2
        by_contra hlt
        push_neg at hlt
        have ho := locatable_openHere pre2 _ mid2 post2 hl2
        have hno := findFirst_open_leftmost _ none om hf pre2.length hlt
        rw [ho] at hno
        exact absurd hno (by simp)
      · rw [hinner, hie]
        have hdrop : (stripXmlProlog s).data.drop (om.pre.length + om.matched.length) =
            om.post := by
          conv_lhs => rw [hdec]
          rw [← List.length_append om.pre om.matched]
          exact List.drop_left _ _
        rw [hdrop]
        have hml := congrArg List.length hmt
        simp only [List.length_cons, List.length_append, List.length_nil] at hml
        have hml2 : om.matched.length = atts.length + 5 := by omega
        rw [hml2]
        congr 1
        omega
/-- C9 counterexample: `<svg>a</svg>b` does contain a root close tag, and
the claim says the inner markup stops at the start of the final one (inner
`a`), but the close tag is not at the end of the document, so the code
returns inner `a</svg>b`. -/
theorem c9_counterexample :
    extractSvgParts "<svg>a</svg>b" = some ("a</svg>b", []) ∧
    ("a</svg>b" : String) ≠ "a" ∧
    hasSubCI "</svg>".data "<svg>a</svg>b".data = true := by
  refine ⟨by decide, by decide, by decide⟩

/-- C9 witness: the success characterization applied to the
counterexample input. -/
theorem c9_parse_witness :
    ∃ pre c1 c2 c3 atts post,
      (stripXmlProlog "<svg>a</svg>b").data =
        pre ++ '<' :: c1 :: c2 :: c3 :: (atts ++ '>' :: post) ∧
      ciEq c1 's' = true ∧ ciEq c2 'v' = true ∧ ciEq c3 'g' = true ∧
      atts.all (fun c => c ≠ '>') = true ∧
      (∀ pre2 mid2 post2,
        (stripXmlProlog "<svg>a</svg>b").data.map Char.toLower =
          pre2 ++ "<svg".data ++ mid2 ++ '>' :: post2 →
        pre.length ≤ pre2.length) ∧
      ("a</svg>b" : String).data = post.take
        (innerEndOf (stripXmlProlog "<svg>a</svg>b").data -
          (pre.length + 5 + atts.length)) :=
  (c9_parse "<svg>a</svg>b").2 "a</svg>b" [] (by decide)

end MergeSvg
